import Mathlib

/-!
Verification of the peer-discovery and direct-messaging core of the
BreakTools/NukeNodeMailer repository (`node_mailer/models/discovery.py`,
`node_mailer/models/messaging.py`, `node_mailer/data_models.py`), against its
natural-language specification.

The Python code is shallowly embedded:

* Python values that travel through `json.dumps` / `json.loads` are modelled by
  the inductive type `Json`.  `pyDumps` mirrors `json.dumps` with its default
  settings (`ensure_ascii=True`, separators `", "` / `": "`); `pyLoads` mirrors
  `json.loads` (whitespace handling, the `NUMBER_RE` grammar including the
  `NaN` / `Infinity` / `-Infinity` constants, string escapes with surrogate-pair
  recombination, rejection of raw control characters inside strings,
  last-wins duplicate-key handling, and the trailing-data check).  `json`
  failures that raise `json.JSONDecodeError` are modelled as `none`.
* Python strings are modelled as sequences of Unicode scalar values
  (Lean `String`).  Two deliberate abstractions: a `\uXXXX` escape denoting a
  lone UTF-16 surrogate (which CPython would keep as an unpaired surrogate
  code unit) is treated as undecodable, since such strings cannot arise from
  the `bytes.decode("utf-8")` step that produces every buffer here; and the
  parser's recursion is bounded by a fuel equal to the input length, mirroring
  CPython's own recursion limit on deeply nested documents.
* TCP reads are modelled at the byte level: the payload of a read event is
  the list of bytes `readAll().data()` returns (naturals below 256), and the
  per-read `bytes.decode("utf-8")` of `on_message_received` is the strict
  UTF-8 decoder `utf8Decode`, whose `none` models the raised
  `UnicodeDecodeError`.
* Python floats appearing in JSON text are carried as uninterpreted lexemes
  (`Json.jfloat`); no claim inspects a float's numeric value.
* `datetime.now().timestamp()` values are modelled as exact rationals.
* Dynamically-typed attribute values (dataclass fields, dict entries) are
  modelled as `Json`: Python dataclasses do not enforce their annotations.
-/

/-- A Python value in the image of `json.loads` / argument of `json.dumps`:
`None`, `bool`, `int`, `float` (kept as its source lexeme), `str`, `list`,
`dict` (association list in insertion order; parsing keeps the last of
duplicate keys, so parsed dicts have pairwise-distinct keys). -/
inductive Json where
  | null
  | bool (b : Bool)
  | int (n : Int)
  | jfloat (tok : String)
  | str (s : String)
  | arr (es : List Json)
  | obj (kvs : List (String × Json))

mutual
/-- Python `==` on `Json`-modelled values (structural equality; on the values
that actually occur in the claims this coincides with CPython `==`). -/
def jbeq : Json → Json → Bool
  | .null, .null => true
  | .bool a, .bool b => a == b
  | .int a, .int b => a == b
  | .jfloat a, .jfloat b => a == b
  | .str a, .str b => a == b
  | .arr a, .arr b => jbeqItems a b
  | .obj a, .obj b => jbeqEntries a b
  | _, _ => false
def jbeqItems : List Json → List Json → Bool
  | [], [] => true
  | a :: as, b :: bs => jbeq a b && jbeqItems as bs
  | _, _ => false
def jbeqEntries : List (String × Json) → List (String × Json) → Bool
  | [], [] => true
  | (k, v) :: as, (k2, v2) :: bs => k == k2 && jbeq v v2 && jbeqEntries as bs
  | _, _ => false
end

/-- Lower-case hexadecimal digit character for `d < 16`, as `json.dumps` emits
in `\uXXXX` escapes. -/
def hexDigChar (d : Nat) : Char :=
  if d < 10 then Char.ofNat (48 + d) else Char.ofNat (87 + d)

/-- The four hex digits of `n % 0x10000`, most significant first. -/
def hexQuadChars (n : Nat) : List Char :=
  [hexDigChar (n / 4096 % 16), hexDigChar (n / 256 % 16),
   hexDigChar (n / 16 % 16), hexDigChar (n % 16)]

/-- `json.dumps` escaping of one character with `ensure_ascii=True`: named
escapes for `"` `\` and the five control characters in `ESCAPE_DCT`, printable
ASCII kept verbatim, everything else as `\uXXXX` (a surrogate pair for
characters beyond the BMP). -/
def jEscChar (c : Char) : List Char :=
  if c = '"' then ['\\', '"']
  else if c = '\\' then ['\\', '\\']
  else if c = '\x08' then ['\\', 'b']
  else if c = '\x0c' then ['\\', 'f']
  else if c = '\n' then ['\\', 'n']
  else if c = '\x0d' then ['\\', 'r']
  else if c = '\t' then ['\\', 't']
  else if 0x20 ≤ c.toNat && c.toNat ≤ 0x7e then [c]
  else if c.toNat < 0x10000 then '\\' :: 'u' :: hexQuadChars c.toNat
  else
    '\\' :: 'u' :: hexQuadChars (0xD800 + (c.toNat - 0x10000) / 0x400) ++
    '\\' :: 'u' :: hexQuadChars (0xDC00 + (c.toNat - 0x10000) % 0x400)

/-- Escape every character of a string body. -/
def jEscStr : List Char → List Char
  | [] => []
  | c :: cs => jEscChar c ++ jEscStr cs

/-- A JSON string literal: quote, escaped body, quote. -/
def dumpStrChars (s : String) : List Char :=
  '"' :: (jEscStr s.data ++ ['"'])

/-- Decimal digit characters of a natural number, most significant first,
structurally recursive on a fuel bound so the kernel can evaluate it. -/
def natCharsRec : Nat → Nat → List Char
  | 0, _ => []
  | fuel + 1, m =>
      if m < 10 then [Char.ofNat (48 + m)]
      else natCharsRec fuel (m / 10) ++ [Char.ofNat (48 + m % 10)]

/-- Decimal digit characters of a natural number, most significant first
(`"0"` for zero), as `str(int)` prints the magnitude. -/
def natChars (m : Nat) : List Char := natCharsRec (m + 1) m

/-- `str(int)`: optional minus sign followed by the decimal digits. -/
def intChars (n : Int) : List Char :=
  if n < 0 then '-' :: natChars n.natAbs else natChars n.natAbs

mutual
/-- `json.dumps` with default settings, producing the character sequence:
item separator `", "`, key separator `": "`, `ensure_ascii` escaping. -/
def jdump : Json → List Char
  | .int n => intChars n
  | .jfloat tok => tok.data
  | .null => ['n', 'u', 'l', 'l']
  | .bool false => ['f', 'a', 'l', 's', 'e']
  | .bool true => ['t', 'r', 'u', 'e']
  | .str s => dumpStrChars s
  | .obj kvs => '\x7b' :: (jdumpEntries kvs ++ ['\x7d'])
  | .arr es => '[' :: (jdumpItems es ++ [']'])
def jdumpItems : List Json → List Char
  | [] => []
  | [e] => jdump e
  | e :: es => jdump e ++ ',' :: ' ' :: jdumpItems es
def jdumpEntries : List (String × Json) → List Char
  | [] => []
  | [(k, v)] => dumpStrChars k ++ ':' :: ' ' :: jdump v
  | (k, v) :: kvs => dumpStrChars k ++ ':' :: ' ' :: jdump v ++ ',' :: ' ' :: jdumpEntries kvs
end

/-- `json.dumps` as a Python string. -/
def pyDumps (j : Json) : String := String.mk (jdump j)

/-! Well-formedness of a `Json` value for the serializer round-trip: no float
lexemes, and every object's keys are pairwise distinct (as is true of every
dict built by the parser and of every dict the repository serializes). -/

/-- No string occurs twice in the list. -/
def namesNodup : List String → Bool
  | [] => true
  | k :: ks => !(ks.contains k) && namesNodup ks

mutual
/-- Serializer-side well-formedness (see module docstring). -/
def jwf : Json → Bool
  | .null => true
  | .bool _ => true
  | .int _ => true
  | .jfloat _ => false
  | .str _ => true
  | .arr es => jwfItems es
  | .obj kvs => namesNodup (kvs.map Prod.fst) && jwfEntries kvs
def jwfItems : List Json → Bool
  | [] => true
  | e :: es => jwf e && jwfItems es
def jwfEntries : List (String × Json) → Bool
  | [] => true
  | (_, v) :: kvs => jwf v && jwfEntries kvs
end

mutual
/-- Parser fuel needed for a value (one unit per node and per list element). -/
def jsize : Json → Nat
  | .null => 1
  | .bool _ => 1
  | .int _ => 1
  | .jfloat _ => 1
  | .str _ => 1
  | .arr es => 1 + jsizeItems es
  | .obj kvs => 1 + jsizeEntries kvs
def jsizeItems : List Json → Nat
  | [] => 0
  | e :: es => 1 + jsize e + jsizeItems es
def jsizeEntries : List (String × Json) → Nat
  | [] => 0
  | (_, v) :: kvs => 1 + jsize v + jsizeEntries kvs
end

/-! ### The `json.loads` model -/

/-- The four whitespace characters `json.loads` skips between tokens. -/
def isSpaceChar (c : Char) : Bool :=
  c = ' ' || c = '\t' || c = '\n' || c = '\x0d'

/-- Drop leading JSON whitespace. -/
def skipSpace : List Char → List Char
  | [] => []
  | c :: cs => if isSpaceChar c then skipSpace cs else c :: cs

/-- ASCII decimal digit test. -/
def isDig (c : Char) : Bool := 48 ≤ c.toNat && c.toNat ≤ 57

/-- Split off the maximal leading run of decimal digits. -/
def digSpan : List Char → List Char × List Char
  | [] => ([], [])
  | c :: cs =>
      if isDig c then
        let p := digSpan cs
        (c :: p.1, p.2)
      else ([], c :: cs)

/-- Numeric value of a digit run. -/
def digVal (ds : List Char) : Nat :=
  ds.foldl (fun a c => 10 * a + (c.toNat - 48)) 0

/-- Value of one hexadecimal digit, accepting both cases as `json.loads` does. -/
def hexDigVal (c : Char) : Option Nat :=
  if 48 ≤ c.toNat && c.toNat ≤ 57 then some (c.toNat - 48)
  else if 97 ≤ c.toNat && c.toNat ≤ 102 then some (c.toNat - 87)
  else if 65 ≤ c.toNat && c.toNat ≤ 70 then some (c.toNat - 55)
  else none

/-- Value of a `\uXXXX` escape's four hex digits. -/
def hexQuadVal (a b c d : Char) : Option Nat := do
  let va ← hexDigVal a
  let vb ← hexDigVal b
  let vc ← hexDigVal c
  let vd ← hexDigVal d
  some (((va * 16 + vb) * 16 + vc) * 16 + vd)

/-- The single-character escapes `json.loads` accepts after a backslash. -/
def escDecode : Char → Option Char
  | 'b' => some '\x08'
  | 'f' => some '\x0c'
  | 'n' => some '\n'
  | 'r' => some '\x0d'
  | 't' => some '\t'
  | '/' => some '/'
  | '\\' => some '\\'
  | '"' => some '"'
  | _ => none

/-- Scan a JSON string body after its opening quote, `json.loads`-style:
raw control characters are rejected (`strict=True`), escapes are decoded, and
a high-surrogate escape followed by a low-surrogate escape is recombined into
one scalar.  A `\uXXXX` escape denoting a lone surrogate is treated as
undecodable (see the module docstring). -/
def readStringRest : List Char → Option (List Char × List Char)
  | [] => none
  | '"' :: rest => some ([], rest)
  | '\\' :: rest =>
    match rest with
    | 'u' :: a :: b :: c :: d :: r2 =>
      match hexQuadVal a b c d with
      | none => none
      | some n =>
        if n < 0xD800 || 0xDFFF < n then
          (readStringRest r2).map (fun p => (Char.ofNat n :: p.1, p.2))
        else if n ≤ 0xDBFF then
          match r2 with
          | '\\' :: 'u' :: e :: f :: g :: h :: r3 =>
            match hexQuadVal e f g h with
            | none => none
            | some m =>
              if 0xDC00 ≤ m && m ≤ 0xDFFF then
                (readStringRest r3).map
                  (fun p => (Char.ofNat (0x10000 + (n - 0xD800) * 0x400 + (m - 0xDC00)) :: p.1, p.2))
              else none
          | _ => none
        else none
    | e :: r2 =>
      match escDecode e with
      | some c => (readStringRest r2).map (fun p => (c :: p.1, p.2))
      | none => none
    | [] => none
  | c :: rest =>
      if c.toNat < 0x20 then none
      else (readStringRest rest).map (fun p => (c :: p.1, p.2))

/-- Integer part of `NUMBER_RE`: a nonempty digit run with no leading zero. -/
def readIntPart (cs : List Char) : Option (List Char × List Char) :=
  match digSpan cs with
  | (ds, r) =>
    if ds.isEmpty then none
    else if ds.head? = some '0' && 1 < ds.length then none
    else some (ds, r)

/-- Optional fraction of `NUMBER_RE`: `.` followed by at least one digit. -/
def readFracPart (cs : List Char) : Option (List Char × List Char) :=
  match cs with
  | [] => some ([], [])
  | c :: r =>
    if c = '.' then
      match digSpan r with
      | (fs, r2) => if fs.isEmpty then none else some ('.' :: fs, r2)
    else some ([], c :: r)

/-- Exponent digits after the marker and optional sign. -/
def readExpDigits (pre : List Char) (cs : List Char) : Option (List Char × List Char) :=
  match digSpan cs with
  | (ds, r2) => if ds.isEmpty then none else some (pre ++ ds, r2)

/-- Optional sign after the exponent marker. -/
def readExpTail (pre : List Char) (cs : List Char) : Option (List Char × List Char) :=
  match cs with
  | [] => readExpDigits pre []
  | c :: r =>
    if c = '+' ∨ c = '-' then readExpDigits (pre ++ [c]) r
    else readExpDigits pre (c :: r)

/-- Optional exponent of `NUMBER_RE`: `e`/`E`, optional sign, digits. -/
def readExpPart (cs : List Char) : Option (List Char × List Char) :=
  match cs with
  | [] => some ([], [])
  | c :: r =>
    if c = 'e' ∨ c = 'E' then readExpTail [c] r
    else some ([], c :: r)

/-- Body of the number scanner once the optional minus sign is consumed.
A pure integer match is `int(...)`; a fraction or exponent makes it a float,
carried as its lexeme. -/
def readNumberCore (neg : Bool) (cs : List Char) : Option (Json × List Char) :=
  match readIntPart cs with
  | none => none
  | some (ds, r1) =>
    match readFracPart r1 with
    | none => none
    | some (fds, r2) =>
      match readExpPart r2 with
      | none => none
      | some (eds, r3) =>
        if fds.isEmpty && eds.isEmpty then
          some (.int (if neg then -(digVal ds : Int) else (digVal ds : Int)), r3)
        else
          some (.jfloat (String.mk ((if neg then ['-'] else []) ++ ds ++ fds ++ eds)), r3)

/-- Scan a number per `json.loads`' `NUMBER_RE`: optional sign, integer part
with no leading zero, optional fraction and exponent.  Where CPython would
match a shorter token and then fail on the leftover delimiter, this scanner
fails directly: the accepted documents coincide. -/
def readNumber (cs : List Char) : Option (Json × List Char) :=
  match cs with
  | [] => readNumberCore false []
  | c :: r => if c = '-' then readNumberCore true r else readNumberCore false (c :: r)

/-- Insert into a Python dict modelled as an insertion-ordered association
list: overwriting an existing key keeps its position, a new key appends. -/
def dictInsert (d : List (String × Json)) (k : String) (v : Json) : List (String × Json) :=
  match d with
  | [] => [(k, v)]
  | (k0, v0) :: rest => if k0 = k then (k0, v) :: rest else (k0, v0) :: dictInsert rest k v

/-- Consume an expected literal character sequence, as the scanner does for
`null`, `true`, `false`, `NaN` and `Infinity`. -/
def expectChars : List Char → List Char → Option (List Char)
  | [], cs => some cs
  | _ :: _, [] => none
  | e :: es, c :: cs => if c = e then expectChars es cs else none

mutual
/-- Scan one JSON value at the head of `cs` (leading whitespace already
consumed by the caller, as in CPython's scanner). -/
def readValue : Nat → List Char → Option (Json × List Char)
  | 0, _ => none
  | _ + 1, [] => none
  | fuel + 1, c :: r =>
    if c = '"' then (readStringRest r).map (fun p => (Json.str (String.mk p.1), p.2))
    else if c = '\x7b' then
      let r2 := skipSpace r
      if r2.head? = some '\x7d' then some (Json.obj [], r2.tail)
      else (readObjItems fuel r2).map
          (fun p => (Json.obj (p.1.foldl (fun d kv => dictInsert d kv.1 kv.2) []), p.2))
    else if c = '[' then
      let r2 := skipSpace r
      if r2.head? = some ']' then some (Json.arr [], r2.tail)
      else (readArrItems fuel r2).map (fun p => (Json.arr p.1, p.2))
    else if c = 'n' then (expectChars ['u', 'l', 'l'] r).map (fun r2 => (Json.null, r2))
    else if c = 't' then (expectChars ['r', 'u', 'e'] r).map (fun r2 => (Json.bool true, r2))
    else if c = 'f' then
      (expectChars ['a', 'l', 's', 'e'] r).map (fun r2 => (Json.bool false, r2))
    else if c = 'N' then (expectChars ['a', 'N'] r).map (fun r2 => (Json.jfloat "NaN", r2))
    else if c = 'I' then
      (expectChars ['n', 'f', 'i', 'n', 'i', 't', 'y'] r).map
        (fun r2 => (Json.jfloat "Infinity", r2))
    else if c = '-' then
      match expectChars ['I', 'n', 'f', 'i', 'n', 'i', 't', 'y'] r with
      | some r2 => some (Json.jfloat "-Infinity", r2)
      | none => readNumber (c :: r)
    else if isDig c then readNumber (c :: r)
    else none
/-- Scan the comma-separated elements of a non-empty array, positioned at the
first element, up to and including the closing bracket. -/
def readArrItems : Nat → List Char → Option (List Json × List Char)
  | 0, _ => none
  | fuel + 1, cs =>
    match readValue fuel cs with
    | none => none
    | some (v, r) =>
      let r2 := skipSpace r
      if r2.head? = some ',' then
        (readArrItems fuel (skipSpace r2.tail)).map (fun p => (v :: p.1, p.2))
      else if r2.head? = some ']' then some ([v], r2.tail)
      else none
/-- Scan the comma-separated members of a non-empty object, positioned at the
first key's quote, up to and including the closing brace. -/
def readObjItems : Nat → List Char → Option (List (String × Json) × List Char)
  | 0, _ => none
  | fuel + 1, cs =>
    if cs.head? = some '"' then
      match readStringRest cs.tail with
      | none => none
      | some (kcs, r1) =>
        let r2 := skipSpace r1
        if r2.head? = some ':' then
          match readValue fuel (skipSpace r2.tail) with
          | none => none
          | some (v, r3) =>
            let r4 := skipSpace r3
            if r4.head? = some ',' then
              (readObjItems fuel (skipSpace r4.tail)).map
                (fun p => ((String.mk kcs, v) :: p.1, p.2))
            else if r4.head? = some '\x7d' then some ([(String.mk kcs, v)], r4.tail)
            else none
        else none
    else none
end

/-- `json.loads`: skip leading whitespace, scan one value, require only
whitespace after it.  Any `json.JSONDecodeError` is `none`. -/
def pyLoads (s : String) : Option Json :=
  let cs := skipSpace s.data
  match readValue (cs.length + 1) cs with
  | some (j, r) => if (skipSpace r).isEmpty then some j else none
  | none => none

example : pyLoads "null" = some Json.null := rfl
example : pyLoads " [1, 2] " = some (Json.arr [Json.int 1, Json.int 2]) := rfl
example : pyLoads "not json" = none := rfl
example : pyLoads "-12" = some (Json.int (-12)) := rfl
example : pyLoads "1.5e3" = some (Json.jfloat "1.5e3") := rfl
example : pyLoads "01" = none := rfl
example : pyLoads "\x7b\"a\": 1, \"a\": 2\x7d" = some (Json.obj [("a", Json.int 2)]) := rfl
example : pyLoads "\x7b\"t\": \"\\u00e9\"\x7d" = some (Json.obj [("t", Json.str "é")]) := rfl
example : pyLoads "\"\\ud83d\\ude00\"" = some (Json.str "😀") := rfl
example : pyDumps (Json.obj [("type", Json.str "mail"), ("n", Json.int (-10))])
    = "\x7b\"type\": \"mail\", \"n\": -10\x7d" := rfl
example : pyDumps (Json.str "a\"é😀") = "\"a\\\"\\u00e9\\ud83d\\ude00\"" := rfl

/-! ### Round-trip: digits and numbers -/

/-- The remainder after a serialized number must not begin with a character
that could extend the numeric token.  Every separator the serializer emits
(`,`, `]`, the closing brace, end of input) satisfies this. -/
def numBdry : List Char → Bool
  | [] => true
  | c :: _ => !(isDig c || c = '.' || c = 'e' || c = 'E')

theorem digitChar_toNat {d : Nat} (h : d < 10) : (Char.ofNat (48 + d)).toNat = 48 + d := by
  interval_cases d <;> decide

theorem digitChar_isDig {d : Nat} (h : d < 10) : isDig (Char.ofNat (48 + d)) = true := by
  interval_cases d <;> decide

theorem digitChar_ne_zero {d : Nat} (h : d < 10) (h0 : d ≠ 0) : Char.ofNat (48 + d) ≠ '0' := by
  interval_cases d
  · exact absurd rfl h0
  all_goals decide

/-- A digit character is none of the characters the scanner dispatches on. -/
theorem isDig_ne {c : Char} (h : isDig c = true) {d : Char} (hd : isDig d = false) : c ≠ d := by
  intro he
  rw [he, hd] at h
  exact Bool.false_ne_true h

theorem isDig_facts {c : Char} (h : isDig c = true) :
    c ≠ '"' ∧ c ≠ '\x7b' ∧ c ≠ '[' ∧ c ≠ 'n' ∧ c ≠ 't' ∧ c ≠ 'f' ∧ c ≠ 'N' ∧ c ≠ 'I' ∧
    c ≠ '-' ∧ c ≠ '.' ∧ c ≠ 'e' ∧ c ≠ 'E' ∧ c ≠ ']' ∧ c ≠ '\x7d' ∧ isSpaceChar c = false := by
  refine ⟨isDig_ne h (by decide), isDig_ne h (by decide), isDig_ne h (by decide),
    isDig_ne h (by decide), isDig_ne h (by decide), isDig_ne h (by decide),
    isDig_ne h (by decide), isDig_ne h (by decide), isDig_ne h (by decide),
    isDig_ne h (by decide), isDig_ne h (by decide), isDig_ne h (by decide),
    isDig_ne h (by decide), isDig_ne h (by decide), ?_⟩
  have h1 : c ≠ ' ' := isDig_ne h (by decide)
  have h2 : c ≠ '\t' := isDig_ne h (by decide)
  have h3 : c ≠ '\n' := isDig_ne h (by decide)
  have h4 : c ≠ '\x0d' := isDig_ne h (by decide)
  simp [isSpaceChar, h1, h2, h3, h4]

theorem natCharsRec_fuel : ∀ f f' m, m < f → m < f' → natCharsRec f m = natCharsRec f' m := by
  intro f
  induction f using Nat.strong_induction_on with
  | _ f ih =>
    intro f' m hf hf'
    match f, f' with
    | fa + 1, fb + 1 =>
      simp only [natCharsRec]
      by_cases h10 : m < 10
      · simp [h10]
      · have hm : 0 < m := by omega
        have hdiv : m / 10 < m := Nat.div_lt_self hm (by omega)
        simp only [if_neg h10]
        rw [ih fa (by omega) fb (m / 10) (by omega) (by omega)]

theorem natChars_unfold (m : Nat) :
    natChars m = if m < 10 then [Char.ofNat (48 + m)]
                 else natChars (m / 10) ++ [Char.ofNat (48 + m % 10)] := by
  by_cases h10 : m < 10
  · simp [natChars, natCharsRec, h10]
  · have hdiv : m / 10 < m := Nat.div_lt_self (by omega) (by omega)
    simp only [natChars, if_neg h10]
    rw [show natCharsRec (m + 1) m = natCharsRec m (m / 10) ++ [Char.ofNat (48 + m % 10)] from by
      simp [natCharsRec, h10]]
    rw [natCharsRec_fuel m (m / 10 + 1) (m / 10) (by omega) (by omega)]

theorem natChars_all_dig : ∀ m, ∀ c ∈ natChars m, isDig c = true := by
  intro m
  induction m using Nat.strong_induction_on with
  | _ m ih =>
    rw [natChars_unfold]
    by_cases h10 : m < 10
    · simp only [if_pos h10, List.mem_singleton]
      rintro c rfl
      exact digitChar_isDig h10
    · simp only [if_neg h10, List.mem_append, List.mem_singleton]
      rintro c (hc | rfl)
      · exact ih (m / 10) (Nat.div_lt_self (by omega) (by omega)) c hc
      · exact digitChar_isDig (Nat.mod_lt _ (by omega))

theorem natChars_head : ∀ m, m ≠ 0 → ∃ c t, natChars m = c :: t ∧ isDig c = true ∧ c ≠ '0' := by
  intro m
  induction m using Nat.strong_induction_on with
  | _ m ih =>
    intro hm
    rw [natChars_unfold]
    by_cases h10 : m < 10
    · exact ⟨Char.ofNat (48 + m), [], by simp [h10], digitChar_isDig h10,
        digitChar_ne_zero h10 hm⟩
    · obtain ⟨c, t, hct, hdig, hne⟩ :=
        ih (m / 10) (Nat.div_lt_self (by omega) (by omega)) (by omega)
      exact ⟨c, t ++ [Char.ofNat (48 + m % 10)], by simp [h10, hct], hdig, hne⟩

theorem digVal_append_last (xs : List Char) (c : Char) :
    digVal (xs ++ [c]) = 10 * digVal xs + (c.toNat - 48) := by
  simp [digVal, List.foldl_append]

theorem digVal_natChars : ∀ m, digVal (natChars m) = m := by
  intro m
  induction m using Nat.strong_induction_on with
  | _ m ih =>
    rw [natChars_unfold]
    by_cases h10 : m < 10
    · simp [h10, digVal, digitChar_toNat h10]
    · have hdiv : m / 10 < m := Nat.div_lt_self (by omega) (by omega)
      rw [if_neg h10, digVal_append_last, ih (m / 10) hdiv,
          digitChar_toNat (Nat.mod_lt _ (by omega))]
      omega

theorem digSpan_stop : ∀ cs : List Char, numBdry cs = true → digSpan cs = ([], cs) := by
  intro cs h
  match cs with
  | [] => rfl
  | c :: t =>
    simp only [numBdry, Bool.not_eq_true', Bool.or_eq_false_iff] at h
    simp [digSpan, h.1.1.1]

theorem digSpan_run (ds : List Char) (hds : ∀ c ∈ ds, isDig c = true)
    (rest : List Char) (hrest : digSpan rest = ([], rest)) :
    digSpan (ds ++ rest) = (ds, rest) := by
  induction ds with
  | cons c t ih =>
    have hd1 : isDig c = true := hds c (List.mem_cons_self c t)
    have hd2 := ih (fun x hx => hds x (List.mem_cons_of_mem c hx))
    simp [digSpan, hd1, hd2]
  | nil => simpa using hrest

theorem numBdry_digSpan {cs : List Char} (h : numBdry cs = true) : digSpan cs = ([], cs) :=
  digSpan_stop cs h

example : numBdry [']'] = true := by decide
example : numBdry [','] = true := by decide
example : numBdry ['\x7d'] = true := by decide

theorem readIntPart_natChars (m : Nat) (rest : List Char) (hb : numBdry rest = true) :
    readIntPart (natChars m ++ rest) = some (natChars m, rest) := by
  have hspan : digSpan (natChars m ++ rest) = (natChars m, rest) :=
    digSpan_run _ (natChars_all_dig m) _ (numBdry_digSpan hb)
  by_cases hm : m = 0
  · subst hm
    have h0 : natChars 0 = ['0'] := rfl
    rw [readIntPart, hspan, h0]
    rfl
  · obtain ⟨c, t, hct, _, hc0⟩ := natChars_head m hm
    rw [readIntPart, hspan, hct]
    simp [hc0]

theorem readFracPart_bdry (cs : List Char) (hb : numBdry cs = true) :
    readFracPart cs = some ([], cs) := by
  match cs with
  | [] => rfl
  | c :: t =>
    simp only [numBdry, Bool.not_eq_true', Bool.or_eq_false_iff,
      decide_eq_false_iff_not] at hb
    simp [readFracPart, hb.1.1.2]

theorem readExpPart_bdry (cs : List Char) (hb : numBdry cs = true) :
    readExpPart cs = some ([], cs) := by
  match cs with
  | [] => rfl
  | c :: t =>
    simp only [numBdry, Bool.not_eq_true', Bool.or_eq_false_iff,
      decide_eq_false_iff_not] at hb
    simp [readExpPart, hb.1.2, hb.2]

theorem readNumberCore_natChars (neg : Bool) (m : Nat) (rest : List Char)
    (hb : numBdry rest = true) :
    readNumberCore neg (natChars m ++ rest)
      = some (.int (if neg then -(m : Int) else (m : Int)), rest) := by
  simp only [readNumberCore, readIntPart_natChars m rest hb, readFracPart_bdry rest hb,
    readExpPart_bdry rest hb, List.isEmpty_nil, Bool.and_self, if_pos, digVal_natChars]

theorem readNumber_intChars (n : Int) (rest : List Char) (hb : numBdry rest = true) :
    readNumber (intChars n ++ rest) = some (.int n, rest) := by
  by_cases hn : n < 0
  · rw [intChars, if_pos hn, List.cons_append, readNumber]
    simp only [reduceIte]
    rw [readNumberCore_natChars true _ _ hb]
    have hv : -((n.natAbs : Nat) : Int) = n := by omega
    simp [hv, abs_of_neg hn]
  · rw [intChars, if_neg hn]
    obtain ⟨c, t, hct, hdig⟩ : ∃ c t, natChars n.natAbs = c :: t ∧ isDig c = true := by
      by_cases hm : n.natAbs = 0
      · exact ⟨'0', [], by rw [hm]; rfl, by decide⟩
      · obtain ⟨c, t, h1, h2, _⟩ := natChars_head _ hm
        exact ⟨c, t, h1, h2⟩
    have hcm : c ≠ '-' := (isDig_facts hdig).2.2.2.2.2.2.2.2.1
    rw [hct, List.cons_append, readNumber]
    simp only [if_neg hcm]
    rw [← List.cons_append, ← hct, readNumberCore_natChars false _ _ hb]
    have hv : ((n.natAbs : Nat) : Int) = n := by omega
    simp [hv]

/-! ### Round-trip: strings -/

theorem hexDigVal_hexDigChar {d : Nat} (h : d < 16) : hexDigVal (hexDigChar d) = some d := by
  interval_cases d <;> decide

theorem hexQuadVal_hexQuadChars {n : Nat} (h : n < 65536) :
    hexQuadVal (hexDigChar (n / 4096 % 16)) (hexDigChar (n / 256 % 16))
      (hexDigChar (n / 16 % 16)) (hexDigChar (n % 16)) = some n := by
  have h1 := hexDigVal_hexDigChar (show n / 4096 % 16 < 16 from Nat.mod_lt _ (by omega))
  have h2 := hexDigVal_hexDigChar (show n / 256 % 16 < 16 from Nat.mod_lt _ (by omega))
  have h3 := hexDigVal_hexDigChar (show n / 16 % 16 < 16 from Nat.mod_lt _ (by omega))
  have h4 := hexDigVal_hexDigChar (show n % 16 < 16 from Nat.mod_lt _ (by omega))
  simp only [hexQuadVal, h1, h2, h3, h4, Option.bind_eq_bind, Option.some_bind,
    Option.some.injEq]
  omega

/-- The scalar-value bounds packaged as `Nat` facts. -/
theorem char_toNat_facts (c : Char) :
    c.toNat < 1114112 ∧ (c.toNat < 55296 ∨ 57343 < c.toNat) := by
  have hc : c.toNat = c.val.toNat := rfl
  rcases c.valid with h | h <;> rw [hc] <;> omega

theorem readStringRest_escChar (c : Char) (rest : List Char) :
    readStringRest (jEscChar c ++ rest) = (readStringRest rest).map (fun p => (c :: p.1, p.2)) := by
  obtain ⟨hlt, hn⟩ := char_toNat_facts c
  by_cases h1 : c = '"'
  · subst h1; simp [jEscChar, readStringRest, escDecode]
  · by_cases h2 : c = '\\'
    · subst h2; simp [jEscChar, readStringRest, escDecode]
    · by_cases h3 : c = '\x08'
      · subst h3; simp [jEscChar, readStringRest, escDecode]
      · by_cases h4 : c = '\x0c'
        · subst h4; simp [jEscChar, readStringRest, escDecode]
        · by_cases h5 : c = '\n'
          · subst h5; simp [jEscChar, readStringRest, escDecode]
          · by_cases h6 : c = '\x0d'
            · subst h6; simp [jEscChar, readStringRest, escDecode]
            · by_cases h7 : c = '\t'
              · subst h7; simp [jEscChar, readStringRest, escDecode]
              · by_cases h8 : (32 ≤ c.toNat && c.toNat ≤ 126) = true
                · rw [jEscChar, if_neg h1, if_neg h2, if_neg h3, if_neg h4, if_neg h5,
                    if_neg h6, if_neg h7, if_pos h8, List.singleton_append, readStringRest]
                  all_goals try exact h1
                  all_goals try exact h2
                  simp only [Bool.and_eq_true, decide_eq_true_eq] at h8
                  rw [if_neg (by omega)]
                · by_cases h9 : c.toNat < 65536
                  · rw [jEscChar, if_neg h1, if_neg h2, if_neg h3, if_neg h4, if_neg h5,
                      if_neg h6, if_neg h7, if_neg h8, if_pos (by simpa using h9), hexQuadChars]
                    simp only [List.cons_append, List.nil_append, readStringRest,
                      hexQuadVal_hexQuadChars h9]
                    rw [if_pos (by simp only [Bool.or_eq_true, decide_eq_true_eq]; omega),
                      Char.ofNat_toNat]
                  · have h10 : ¬ c.toNat < 65536 := h9
                    have hv : 65536 ≤ c.toNat ∧ c.toNat ≤ 1114111 := by omega
                    rw [jEscChar, if_neg h1, if_neg h2, if_neg h3, if_neg h4, if_neg h5,
                      if_neg h6, if_neg h7, if_neg h8, if_neg (by simpa using h9),
                      hexQuadChars, hexQuadChars]
                    have hhi : 55296 + (c.toNat - 65536) / 1024 < 65536 := by omega
                    have hlo : 56320 + (c.toNat - 65536) % 1024 < 65536 := by
                      have := Nat.mod_lt (c.toNat - 65536) (show 0 < 1024 by omega)
                      omega
                    simp only [List.cons_append, List.nil_append, readStringRest,
                      hexQuadVal_hexQuadChars hhi, hexQuadVal_hexQuadChars hlo]
                    have hq : (c.toNat - 65536) / 1024 ≤ 1023 := by omega
                    rw [if_neg (by simp only [Bool.or_eq_true, decide_eq_true_eq]; omega),
                      if_pos (by omega),
                      if_pos (by
                        simp only [Bool.and_eq_true, decide_eq_true_eq]
                        constructor <;> [omega;
                          exact Nat.le_of_lt_succ (by
                            have := Nat.mod_lt (c.toNat - 65536) (show 0 < 1024 by omega)
                            omega)]),
                      show 65536 + (55296 + (c.toNat - 65536) / 1024 - 55296) * 1024 +
                          (56320 + (c.toNat - 65536) % 1024 - 56320) = c.toNat from by
                        have hdm := Nat.div_add_mod (c.toNat - 65536) 1024
                        omega,
                      Char.ofNat_toNat]

theorem readStringRest_escStr : ∀ (s : List Char) (rest : List Char),
    readStringRest (jEscStr s ++ '"' :: rest) = some (s, rest) := by
  intro s
  induction s with
  | nil => intro rest; rfl
  | cons c s ih =>
    intro rest
    rw [jEscStr, List.append_assoc, readStringRest_escChar, ih]
    rfl

/-! ### Round-trip: values -/

theorem stringMk_data (s : String) : String.mk s.data = s := rfl

theorem skipSpace_notSpace {c : Char} (h : isSpaceChar c = false) (t : List Char) :
    skipSpace (c :: t) = c :: t := by
  simp [skipSpace, h]

theorem jsize_pos (v : Json) : 1 ≤ jsize v := by
  cases v <;> simp [jsize]

theorem jdump_head (v : Json) (hwf : jwf v = true) :
    ∃ c t, jdump v = c :: t ∧ isSpaceChar c = false ∧ c ≠ ']' ∧ c ≠ '\x7d' := by
  cases v with
  | jfloat tok => exact absurd hwf (by simp [jwf])
  | int n =>
    rw [show jdump (.int n) = intChars n from rfl, intChars]
    by_cases hn : n < 0
    · refine ⟨'-', _, by rw [if_pos hn], ?_, ?_, ?_⟩ <;> decide
    · rw [if_neg hn]
      by_cases hm : n.natAbs = 0
      · refine ⟨'0', [], by rw [hm]; rfl, ?_, ?_, ?_⟩ <;> decide
      · obtain ⟨c, t, hct, hdig, _⟩ := natChars_head _ hm
        obtain ⟨-, -, -, -, -, -, -, -, -, -, -, -, hb1, hb2, hsp⟩ := isDig_facts hdig
        exact ⟨c, t, hct, hsp, hb1, hb2⟩
  | null => refine ⟨'n', _, rfl, ?_, ?_, ?_⟩ <;> decide
  | bool b =>
    cases b
    · refine ⟨'f', _, rfl, ?_, ?_, ?_⟩ <;> decide
    · refine ⟨'t', _, rfl, ?_, ?_, ?_⟩ <;> decide
  | str s => refine ⟨'"', _, rfl, ?_, ?_, ?_⟩ <;> decide
  | arr es => refine ⟨'[', _, rfl, ?_, ?_, ?_⟩ <;> decide
  | obj kvs => refine ⟨'\x7b', _, rfl, ?_, ?_, ?_⟩ <;> decide

theorem skipSpace_jdump (v : Json) (hwf : jwf v = true) (x : List Char) :
    skipSpace (jdump v ++ x) = jdump v ++ x := by
  obtain ⟨c, t, hct, hsp, -, -⟩ := jdump_head v hwf
  rw [hct, List.cons_append, skipSpace_notSpace hsp]

theorem jdumpItems_cons2 (e e2 : Json) (es : List Json) :
    jdumpItems (e :: e2 :: es) = jdump e ++ ',' :: ' ' :: jdumpItems (e2 :: es) := rfl

theorem jdumpEntries_cons2 (k : String) (v : Json) (kv2 : String × Json)
    (kvs : List (String × Json)) :
    jdumpEntries ((k, v) :: kv2 :: kvs)
      = dumpStrChars k ++ ':' :: ' ' :: (jdump v ++ ',' :: ' ' :: jdumpEntries (kv2 :: kvs)) := by
  obtain ⟨k2, v2⟩ := kv2
  simp [jdumpEntries]

theorem readValue_digit (fuel : Nat) (c : Char) (t : List Char) (hdig : isDig c = true) :
    readValue (fuel + 1) (c :: t) = readNumber (c :: t) := by
  obtain ⟨n1, n2, n3, n4, n5, n6, n7, n8, n9, -⟩ := isDig_facts hdig
  rw [readValue, if_neg n1, if_neg n2, if_neg n3, if_neg n4, if_neg n5, if_neg n6,
    if_neg n7, if_neg n8, if_neg n9, if_pos hdig]

theorem readValue_minus_digit (fuel : Nat) (d : Char) (t : List Char) (hd : isDig d = true) :
    readValue (fuel + 1) ('-' :: d :: t) = readNumber ('-' :: d :: t) := by
  have hdI : d ≠ 'I' := isDig_ne hd (by decide)
  rw [readValue]
  rw [if_neg (by decide), if_neg (by decide), if_neg (by decide), if_neg (by decide),
    if_neg (by decide), if_neg (by decide), if_neg (by decide), if_neg (by decide),
    if_pos rfl]
  have hrn : readNumber ('-' :: d :: t) = readNumberCore true (d :: t) := by
    rw [readNumber, if_pos rfl]
  rw [hrn]
  simp [expectChars, hdI]

theorem namesNodup_iff : ∀ l : List String, namesNodup l = true ↔ l.Nodup := by
  intro l
  induction l with
  | nil => simp [namesNodup]
  | cons k ks ih =>
    simp [namesNodup, ih]

theorem dictInsert_fresh : ∀ (d : List (String × Json)) (k : String) (v : Json),
    (∀ kv ∈ d, kv.1 ≠ k) → dictInsert d k v = d ++ [(k, v)] := by
  intro d k v
  induction d with
  | nil => intro _; rfl
  | cons kv0 rest ih =>
    intro h
    obtain ⟨k0, v0⟩ := kv0
    have hk0 : k0 ≠ k := h (k0, v0) (by simp)
    rw [dictInsert, if_neg hk0, List.cons_append, ih (fun kv hkv => h kv (by simp [hkv]))]

theorem foldl_dictInsert_nodup :
    ∀ (kvs acc : List (String × Json)), ((acc ++ kvs).map Prod.fst).Nodup →
    kvs.foldl (fun d kv => dictInsert d kv.1 kv.2) acc = acc ++ kvs := by
  intro kvs
  induction kvs with
  | nil => intro acc _; simp
  | cons kv kvs' ih =>
    intro acc hnd
    obtain ⟨k, v⟩ := kv
    have hfresh : ∀ kv0 ∈ acc, kv0.1 ≠ k := by
      intro kv0 hkv0 he
      rw [List.map_append, List.nodup_append] at hnd
      exact hnd.2.2 (List.mem_map_of_mem _ hkv0) (by simp [he])
    rw [List.foldl_cons, dictInsert_fresh acc k v hfresh,
      ih (acc ++ [(k, v)]) (by rwa [← List.append_cons]), ← List.append_cons]

theorem natChars_head' (m : Nat) : ∃ c t, natChars m = c :: t ∧ isDig c = true := by
  by_cases hm : m = 0
  · exact ⟨'0', [], by rw [hm]; rfl, by decide⟩
  · obtain ⟨c, t, h1, h2, -⟩ := natChars_head m hm
    exact ⟨c, t, h1, h2⟩

theorem jdumpItems_split (e : Json) (es : List Json) :
    ∃ y, jdumpItems (e :: es) = jdump e ++ y := by
  cases es with
  | nil => exact ⟨[], by simp [jdumpItems]⟩
  | cons e2 es' => exact ⟨_, jdumpItems_cons2 e e2 es'⟩

theorem skipSpace_jdumpItems (e : Json) (es : List Json) (hwf : jwf e = true) (x : List Char) :
    skipSpace (jdumpItems (e :: es) ++ x) = jdumpItems (e :: es) ++ x := by
  obtain ⟨y, hy⟩ := jdumpItems_split e es
  rw [hy, List.append_assoc, skipSpace_jdump e hwf, ← List.append_assoc]

theorem readArrItems_dump :
    ∀ (es : List Json), es ≠ [] → ∀ (fuel : Nat) (rest : List Char),
    jwfItems es = true → jsizeItems es ≤ fuel →
    (∀ f, f < fuel → ∀ v r2, jwf v = true → jsize v ≤ f → numBdry r2 = true →
        readValue f (jdump v ++ r2) = some (v, r2)) →
    readArrItems fuel (jdumpItems es ++ ']' :: rest) = some (es, rest) := by
  intro es
  induction es with
  | nil => intro h; exact absurd rfl h
  | cons e es' ih =>
    intro _ fuel rest hwf hsz hrv
    rw [show jwfItems (e :: es') = (jwf e && jwfItems es') from rfl,
      Bool.and_eq_true] at hwf
    rw [show jsizeItems (e :: es') = 1 + jsize e + jsizeItems es' from rfl] at hsz
    obtain ⟨f, rfl⟩ : ∃ f, fuel = f + 1 := ⟨fuel - 1, by omega⟩
    cases es' with
    | nil =>
      rw [show jdumpItems [e] = jdump e from rfl, readArrItems,
        hrv f (by omega) e (']' :: rest) hwf.1 (by omega) (by rfl)]
      have hsk : skipSpace (']' :: rest) = ']' :: rest := skipSpace_notSpace (by decide) rest
      simp [hsk]
    | cons e2 es'' =>
      rw [jdumpItems_cons2, List.append_assoc, List.cons_append, List.cons_append,
        readArrItems, hrv f (by omega) e _ hwf.1 (by omega) (by rfl)]
      have hsk1 : skipSpace (',' :: ' ' :: (jdumpItems (e2 :: es'') ++ ']' :: rest))
          = ',' :: ' ' :: (jdumpItems (e2 :: es'') ++ ']' :: rest) :=
        skipSpace_notSpace (by decide) _
      have hwf2 : jwf e2 = true ∧ jwfItems es'' = true := by
        rw [show jwfItems (e2 :: es'') = (jwf e2 && jwfItems es'') from rfl,
          Bool.and_eq_true] at hwf
        exact hwf.2
      have hskip : skipSpace (' ' :: (jdumpItems (e2 :: es'') ++ ']' :: rest))
          = jdumpItems (e2 :: es'') ++ ']' :: rest := by
        rw [show skipSpace (' ' :: (jdumpItems (e2 :: es'') ++ ']' :: rest))
            = skipSpace (jdumpItems (e2 :: es'') ++ ']' :: rest) from by
              simp [skipSpace, isSpaceChar]]
        exact skipSpace_jdumpItems e2 es'' hwf2.1 _
      have hih : readArrItems f (jdumpItems (e2 :: es'') ++ ']' :: rest)
          = some (e2 :: es'', rest) := by
        refine ih (by simp) f rest ?_ ?_ (fun f2 hf2 => hrv f2 (by omega))
        · rw [show jwfItems (e2 :: es'') = (jwf e2 && jwfItems es'') from rfl,
            Bool.and_eq_true]
          exact hwf2
        · rw [show jsizeItems (e2 :: es'') = 1 + jsize e2 + jsizeItems es'' from rfl] at hsz ⊢
          omega
      simp [hsk1, hskip, hih]

theorem jdumpEntries_split (kv : String × Json) (kvs : List (String × Json)) :
    ∃ y, jdumpEntries (kv :: kvs) = '"' :: y := by
  obtain ⟨k, v⟩ := kv
  cases kvs with
  | nil =>
    refine ⟨jEscStr k.data ++ '"' :: ':' :: ' ' :: jdump v, ?_⟩
    simp [jdumpEntries, dumpStrChars, List.append_assoc]
  | cons kv2 kvs' =>
    refine ⟨jEscStr k.data ++ '"' :: ':' :: ' ' ::
      (jdump v ++ ',' :: ' ' :: jdumpEntries (kv2 :: kvs')), ?_⟩
    rw [jdumpEntries_cons2]
    simp [dumpStrChars, List.append_assoc]

theorem readObjItems_dump :
    ∀ (kvs : List (String × Json)), kvs ≠ [] → ∀ (fuel : Nat) (rest : List Char),
    jwfEntries kvs = true → jsizeEntries kvs ≤ fuel →
    (∀ f, f < fuel → ∀ v r2, jwf v = true → jsize v ≤ f → numBdry r2 = true →
        readValue f (jdump v ++ r2) = some (v, r2)) →
    readObjItems fuel (jdumpEntries kvs ++ '\x7d' :: rest) = some (kvs, rest) := by
  intro kvs
  induction kvs with
  | nil => intro h; exact absurd rfl h
  | cons kv kvs' ih =>
    intro _ fuel rest hwf hsz hrv
    obtain ⟨k, v⟩ := kv
    rw [show jwfEntries ((k, v) :: kvs') = (jwf v && jwfEntries kvs') from rfl,
      Bool.and_eq_true] at hwf
    rw [show jsizeEntries ((k, v) :: kvs') = 1 + jsize v + jsizeEntries kvs' from rfl] at hsz
    obtain ⟨f, rfl⟩ : ∃ f, fuel = f + 1 := ⟨fuel - 1, by omega⟩
    cases kvs' with
    | nil =>
      have hIN : jdumpEntries [(k, v)] ++ '\x7d' :: rest
          = '"' :: (jEscStr k.data ++ '"' :: (':' :: ' ' :: (jdump v ++ '\x7d' :: rest))) := by
        simp [jdumpEntries, dumpStrChars, List.append_assoc]
      rw [hIN, readObjItems]
      simp only [List.head?_cons, List.tail_cons, reduceIte,
        readStringRest_escStr k.data (':' :: ' ' :: (jdump v ++ '\x7d' :: rest))]
      have hsk2 : skipSpace (':' :: ' ' :: (jdump v ++ '\x7d' :: rest))
          = ':' :: ' ' :: (jdump v ++ '\x7d' :: rest) := skipSpace_notSpace (by decide) _
      have hskv : skipSpace (' ' :: (jdump v ++ '\x7d' :: rest)) = jdump v ++ '\x7d' :: rest := by
        rw [show skipSpace (' ' :: (jdump v ++ '\x7d' :: rest))
            = skipSpace (jdump v ++ '\x7d' :: rest) from by simp [skipSpace, isSpaceChar]]
        exact skipSpace_jdump v hwf.1 _
      have hval := hrv f (by omega) v ('\x7d' :: rest) hwf.1 (by omega) (by rfl)
      have hsk4 : skipSpace ('\x7d' :: rest) = '\x7d' :: rest :=
        skipSpace_notSpace (by decide) rest
      simp [hsk2, hskv, hval, hsk4, stringMk_data]
    | cons kv2 kvs'' =>
      have hIN : jdumpEntries ((k, v) :: kv2 :: kvs'') ++ '\x7d' :: rest
          = '"' :: (jEscStr k.data ++ '"' :: (':' :: ' ' ::
              (jdump v ++ ',' :: ' ' :: (jdumpEntries (kv2 :: kvs'') ++ '\x7d' :: rest)))) := by
        rw [jdumpEntries_cons2]
        simp [dumpStrChars, List.append_assoc]
      rw [hIN, readObjItems]
      simp only [List.head?_cons, List.tail_cons, reduceIte,
        readStringRest_escStr k.data _]
      have hsk2 : ∀ x : List Char, skipSpace (':' :: ' ' :: x) = ':' :: ' ' :: x :=
        fun x => skipSpace_notSpace (by decide) _
      have hskv : skipSpace (' ' :: (jdump v ++ ',' :: ' ' ::
            (jdumpEntries (kv2 :: kvs'') ++ '\x7d' :: rest)))
          = jdump v ++ ',' :: ' ' :: (jdumpEntries (kv2 :: kvs'') ++ '\x7d' :: rest) := by
        rw [show skipSpace (' ' :: (jdump v ++ ',' :: ' ' ::
              (jdumpEntries (kv2 :: kvs'') ++ '\x7d' :: rest)))
            = skipSpace (jdump v ++ ',' :: ' ' ::
              (jdumpEntries (kv2 :: kvs'') ++ '\x7d' :: rest)) from by
          simp [skipSpace, isSpaceChar]]
        exact skipSpace_jdump v hwf.1 _
      have hval := hrv f (by omega) v
        (',' :: ' ' :: (jdumpEntries (kv2 :: kvs'') ++ '\x7d' :: rest)) hwf.1 (by omega) (by rfl)
      have hsk4 : skipSpace (',' :: ' ' :: (jdumpEntries (kv2 :: kvs'') ++ '\x7d' :: rest))
          = ',' :: ' ' :: (jdumpEntries (kv2 :: kvs'') ++ '\x7d' :: rest) :=
        skipSpace_notSpace (by decide) _
      have hskipE : skipSpace (' ' :: (jdumpEntries (kv2 :: kvs'') ++ '\x7d' :: rest))
          = jdumpEntries (kv2 :: kvs'') ++ '\x7d' :: rest := by
        obtain ⟨y, hy⟩ := jdumpEntries_split kv2 kvs''
        rw [show skipSpace (' ' :: (jdumpEntries (kv2 :: kvs'') ++ '\x7d' :: rest))
            = skipSpace (jdumpEntries (kv2 :: kvs'') ++ '\x7d' :: rest) from by
          simp [skipSpace, isSpaceChar]]
        rw [hy, List.cons_append, skipSpace_notSpace (by decide)]
      have hih : readObjItems f (jdumpEntries (kv2 :: kvs'') ++ '\x7d' :: rest)
          = some (kv2 :: kvs'', rest) :=
        ih (by simp) f rest hwf.2 (by omega) (fun f2 hf2 => hrv f2 (by omega))
      simp [hsk2, hskv, hval, hsk4, hskipE, hih, stringMk_data]

/-- The central codec fact: scanning a serialized well-formed value consumes
exactly its characters and rebuilds the value, for any fuel at least its size
and any remainder that cannot extend a numeric token. -/
theorem readValue_jdump : ∀ (fuel : Nat) (v : Json) (rest : List Char),
    jwf v = true → jsize v ≤ fuel → numBdry rest = true →
    readValue fuel (jdump v ++ rest) = some (v, rest) := by
  intro fuel
  induction fuel using Nat.strong_induction_on with
  | _ fuel ih =>
    intro v rest hwf hsz hb
    obtain ⟨f, rfl⟩ : ∃ f, fuel = f + 1 := ⟨fuel - 1, by have := jsize_pos v; omega⟩
    cases v with
    | null => rfl
    | bool b => cases b <;> rfl
    | jfloat tok => exact absurd hwf (by simp [jwf])
    | int n =>
      by_cases hn : n < 0
      · obtain ⟨c, t, hct, hdig, -⟩ := natChars_head n.natAbs (by omega)
        have harg : intChars n ++ rest = '-' :: c :: (t ++ rest) := by
          rw [intChars, if_pos hn, hct]
          simp
        rw [show jdump (.int n) = intChars n from rfl, harg,
          readValue_minus_digit f c (t ++ rest) hdig, ← harg, readNumber_intChars n rest hb]
      · obtain ⟨c, t, hct, hdig⟩ := natChars_head' n.natAbs
        have harg : intChars n ++ rest = c :: (t ++ rest) := by
          rw [intChars, if_neg hn, hct]
          simp
        rw [show jdump (.int n) = intChars n from rfl, harg,
          readValue_digit f c (t ++ rest) hdig, ← harg, readNumber_intChars n rest hb]
    | str s =>
      rw [show jdump (.str s) = dumpStrChars s from rfl, dumpStrChars, List.cons_append,
        List.append_assoc, List.singleton_append, readValue, if_pos rfl,
        readStringRest_escStr s.data rest]
      simp [stringMk_data]
    | arr es =>
      cases es with
      | nil => rfl
      | cons e es' =>
        have hwfI : jwf e = true ∧ jwfItems es' = true := by
          rw [show jwf (.arr (e :: es')) = jwfItems (e :: es') from rfl,
            show jwfItems (e :: es') = (jwf e && jwfItems es') from rfl,
            Bool.and_eq_true] at hwf
          exact hwf
        have hszI : jsizeItems (e :: es') ≤ f := by
          rw [show jsize (.arr (e :: es')) = 1 + jsizeItems (e :: es') from rfl] at hsz
          omega
        rw [show jdump (.arr (e :: es')) = '[' :: (jdumpItems (e :: es') ++ [']']) from rfl,
          List.cons_append, List.append_assoc, List.singleton_append, readValue,
          if_neg (by decide), if_neg (by decide), if_pos rfl]
        have hskip := skipSpace_jdumpItems e es' hwfI.1 (']' :: rest)
        obtain ⟨y, hy⟩ := jdumpItems_split e es'
        obtain ⟨c, t, hct, -, hc1, -⟩ := jdump_head e hwfI.1
        have hne : (jdumpItems (e :: es') ++ ']' :: rest).head? ≠ some ']' := by
          rw [hy, hct]
          simp [hc1]
        have hitems := readArrItems_dump (e :: es') (by simp) f rest
          (by rw [show jwfItems (e :: es') = (jwf e && jwfItems es') from rfl,
                Bool.and_eq_true]; exact hwfI) hszI
          (fun f2 hf2 => ih f2 (by omega))
        simp only [hskip, hne, hitems]
        have h1 : (jdumpItems (e :: es')).head? = some c := by
          rw [hy, hct]
          simp
        have h2 : jdumpItems (e :: es') ≠ [] := by
          rw [hy, hct]
          simp
        simp [hskip, hitems, h1, h2, hc1]
    | obj kvs =>
      cases kvs with
      | nil => rfl
      | cons kv kvs' =>
        obtain ⟨k, v0⟩ := kv
        have hwfO : namesNodup (((k, v0) :: kvs').map Prod.fst) = true
            ∧ jwfEntries ((k, v0) :: kvs') = true := by
          rw [show jwf (.obj ((k, v0) :: kvs'))
              = (namesNodup (((k, v0) :: kvs').map Prod.fst)
                  && jwfEntries ((k, v0) :: kvs')) from rfl,
            Bool.and_eq_true] at hwf
          exact hwf
        have hszO : jsizeEntries ((k, v0) :: kvs') ≤ f := by
          rw [show jsize (.obj ((k, v0) :: kvs'))
              = 1 + jsizeEntries ((k, v0) :: kvs') from rfl] at hsz
          omega
        rw [show jdump (.obj ((k, v0) :: kvs'))
            = '\x7b' :: (jdumpEntries ((k, v0) :: kvs') ++ ['\x7d']) from rfl,
          List.cons_append, List.append_assoc, List.singleton_append, readValue,
          if_neg (by decide), if_pos rfl]
        obtain ⟨y, hy⟩ := jdumpEntries_split (k, v0) kvs'
        have hskip : skipSpace (jdumpEntries ((k, v0) :: kvs') ++ '\x7d' :: rest)
            = jdumpEntries ((k, v0) :: kvs') ++ '\x7d' :: rest := by
          rw [hy, List.cons_append, skipSpace_notSpace (by decide)]
        have hne : (jdumpEntries ((k, v0) :: kvs') ++ '\x7d' :: rest).head? ≠ some '\x7d' := by
          rw [hy]
          simp
        have hentries := readObjItems_dump ((k, v0) :: kvs') (by simp) f rest hwfO.2 hszO
          (fun f2 hf2 => ih f2 (by omega))
        have hfold : ((k, v0) :: kvs').foldl (fun d kv2 => dictInsert d kv2.1 kv2.2) []
            = (k, v0) :: kvs' := by
          have := foldl_dictInsert_nodup ((k, v0) :: kvs') []
            (by simpa using (namesNodup_iff _).mp hwfO.1)
          simpa using this
        have h1 : (jdumpEntries ((k, v0) :: kvs')).head? = some '"' := by
          rw [hy]
          simp
        have h2 : jdumpEntries ((k, v0) :: kvs') ≠ [] := by
          rw [hy]
          simp
        simp [hskip, hentries, hfold, h1, h2]

mutual
theorem jsize_le_len : ∀ v : Json, jwf v = true → jsize v ≤ (jdump v).length
  | .null, _ => by simp [jsize, jdump]
  | .bool b, _ => by cases b <;> simp [jsize, jdump]
  | .jfloat tok, h => absurd h (by simp [jwf])
  | .int n, _ => by
    rw [show jdump (.int n) = intChars n from rfl, show jsize (.int n) = 1 from rfl]
    obtain ⟨c, t, hct, -⟩ := natChars_head' n.natAbs
    rw [intChars]
    by_cases hn : n < 0 <;> simp [hn, hct]
  | .str s, _ => by
    rw [show jdump (.str s) = dumpStrChars s from rfl, show jsize (.str s) = 1 from rfl,
      dumpStrChars]
    simp
  | .arr es, h => by
    rw [show jdump (.arr es) = '[' :: (jdumpItems es ++ [']']) from rfl,
      show jsize (.arr es) = 1 + jsizeItems es from rfl]
    have := jsizeItems_le_len es (by rwa [show jwf (.arr es) = jwfItems es from rfl] at h)
    simp only [List.length_cons, List.length_append, List.length_singleton]
    omega
  | .obj kvs, h => by
    rw [show jdump (.obj kvs) = '\x7b' :: (jdumpEntries kvs ++ ['\x7d']) from rfl,
      show jsize (.obj kvs) = 1 + jsizeEntries kvs from rfl]
    have := jsizeEntries_le_len kvs (by
      rw [show jwf (.obj kvs) = (namesNodup (kvs.map Prod.fst) && jwfEntries kvs) from rfl,
        Bool.and_eq_true] at h
      exact h.2)
    simp only [List.length_cons, List.length_append, List.length_singleton]
    omega
theorem jsizeItems_le_len : ∀ es : List Json,
    jwfItems es = true → jsizeItems es ≤ (jdumpItems es).length + 1
  | [], _ => by simp [jsizeItems, jdumpItems]
  | [e], h => by
    rw [show jsizeItems [e] = 1 + jsize e + jsizeItems [] from rfl,
      show jsizeItems ([] : List Json) = 0 from rfl,
      show jdumpItems [e] = jdump e from rfl]
    have := jsize_le_len e (by
      rw [show jwfItems [e] = (jwf e && jwfItems []) from rfl, Bool.and_eq_true] at h
      exact h.1)
    omega
  | e :: e2 :: es, h => by
    have hh : jwf e = true ∧ jwfItems (e2 :: es) = true := by
      rw [show jwfItems (e :: e2 :: es) = (jwf e && jwfItems (e2 :: es)) from rfl,
        Bool.and_eq_true] at h
      exact h
    have h1 := jsize_le_len e hh.1
    have h2 := jsizeItems_le_len (e2 :: es) hh.2
    rw [show jsizeItems (e :: e2 :: es) = 1 + jsize e + jsizeItems (e2 :: es) from rfl,
      jdumpItems_cons2]
    simp only [List.length_append, List.length_cons]
    omega
theorem jsizeEntries_le_len : ∀ kvs : List (String × Json),
    jwfEntries kvs = true → jsizeEntries kvs ≤ (jdumpEntries kvs).length + 1
  | [], _ => by simp [jsizeEntries, jdumpEntries]
  | [(k, v)], h => by
    rw [show jsizeEntries [(k, v)] = 1 + jsize v + jsizeEntries [] from rfl,
      show jsizeEntries ([] : List (String × Json)) = 0 from rfl,
      show jdumpEntries [(k, v)] = dumpStrChars k ++ ':' :: ' ' :: jdump v from rfl]
    have := jsize_le_len v (by
      rw [show jwfEntries [(k, v)] = (jwf v && jwfEntries []) from rfl,
        Bool.and_eq_true] at h
      exact h.1)
    simp only [List.length_append, List.length_cons]
    omega
  | (k, v) :: kv2 :: kvs, h => by
    have hh : jwf v = true ∧ jwfEntries (kv2 :: kvs) = true := by
      rw [show jwfEntries ((k, v) :: kv2 :: kvs) = (jwf v && jwfEntries (kv2 :: kvs)) from rfl,
        Bool.and_eq_true] at h
      exact h
    have h1 := jsize_le_len v hh.1
    have h2 := jsizeEntries_le_len (kv2 :: kvs) hh.2
    rw [show jsizeEntries ((k, v) :: kv2 :: kvs)
        = 1 + jsize v + jsizeEntries (kv2 :: kvs) from rfl,
      jdumpEntries_cons2]
    simp only [List.length_append, List.length_cons]
    omega
end

/-- `json.loads (json.dumps x) == x` for every well-formed value. -/
theorem pyLoads_pyDumps (v : Json) (hwf : jwf v = true) : pyLoads (pyDumps v) = some v := by
  have hdata : (pyDumps v).data = jdump v := rfl
  have hskip : skipSpace (jdump v) = jdump v := by
    have := skipSpace_jdump v hwf []
    simpa using this
  have hrv : readValue ((jdump v).length + 1) (jdump v ++ []) = some (v, []) :=
    readValue_jdump _ v [] hwf (by have := jsize_le_len v hwf; omega) rfl
  rw [pyLoads, hdata, hskip]
  rw [List.append_nil] at hrv
  rw [hrv]
  rfl

/-! ### Python runtime pieces shared by both models -/

/-- The uncaught exceptions the embedded code can raise. -/
inductive PyErr where
  | keyError (key : String)
  | typeError
  | valueError
  | indexError
  deriving DecidableEq

/-- First-match association lookup (Python dicts reaching this model are built
by `pyLoads`, whose last-wins insertion leaves keys pairwise distinct). -/
def dictLookup : List (String × Json) → String → Option Json
  | [], _ => none
  | (k0, v0) :: rest, k => if k0 = k then some v0 else dictLookup rest k

/-- Python subscription `j[k]` with a string key: value or `KeyError` on a
dict, `TypeError` on any other JSON-decoded value. -/
def pyGetItem (j : Json) (k : String) : Except PyErr Json :=
  match j with
  | .obj kvs =>
    match dictLookup kvs k with
    | some v => .ok v
    | none => .error (.keyError k)
  | _ => .error .typeError

/-- Python `list.remove`: drop the first `==`-equal element, `ValueError` if
there is none. -/
def pyListRemove : List Json → Json → Except PyErr (List Json)
  | [], _ => .error .valueError
  | x :: rest, y =>
    if jbeq x y then .ok rest else (pyListRemove rest y).map (fun l => x :: l)

/-! ### `node_mailer/data_models.py` -/

/-- `NodeMailerMail` (`data_models.py`): a dataclass with fields
`sender_name`, `message`, `node_string`, `timestamp`.  The annotations
(`str`, `str`, `str`, `int`) are not enforced by Python, so the fields hold
arbitrary decoded values. -/
structure NodeMailerMail where
  sender_name : Json
  message : Json
  node_string : Json
  timestamp : Json

/-- Modelled from the spec: `NodeMailerMail.as_dict` is called by
`send_mail_to_client` (and by the tests) but defined nowhere in the source
snapshot.  The spec's TCP wire body
`{"type":"mail","mail":{"sender_name":str,"message":str,"node_string":str,"timestamp":int}}`
together with `as_json = json.dumps(asdict(self))` fixes it as
`dataclasses.asdict`: the fields as a dict in declaration order. -/
def NodeMailerMail.as_dict (m : NodeMailerMail) : Json :=
  Json.obj [("sender_name", m.sender_name), ("message", m.message),
    ("node_string", m.node_string), ("timestamp", m.timestamp)]

/-- `NodeMailerMail.as_json`: `json.dumps(asdict(self))`. -/
def NodeMailerMail.as_json (m : NodeMailerMail) : String :=
  pyDumps m.as_dict

/-- `NodeMailerMail(**x)`: succeeds exactly when `x` is a dict with exactly
the four field names as keys (any values — the dataclass does not check
types); otherwise Python raises `TypeError`, and `**x` of a non-mapping is
also a `TypeError`. -/
def mkNodeMailerMail (x : Json) : Except PyErr NodeMailerMail :=
  match x with
  | .obj kvs =>
    match dictLookup kvs "sender_name", dictLookup kvs "message",
        dictLookup kvs "node_string", dictLookup kvs "timestamp" with
    | some a, some b, some c, some d =>
      if kvs.length = 4 then .ok ⟨a, b, c, d⟩ else .error .typeError
    | _, _, _, _ => .error .typeError
  | _ => .error .typeError

/-- A mail whose fields have the types the dataclass declares. -/
def mkTypedMail (sender_name message node_string : String) (timestamp : Int) : NodeMailerMail :=
  ⟨.str sender_name, .str message, .str node_string, .int timestamp⟩

/-- `ReceivingConnection` (`data_models.py`): one open inbound TCP connection.
The live `QTcpSocket` is abstracted to a numeric handle; `message` is the
accumulated buffer. -/
structure ReceivingConnection where
  socket : Nat
  message : String
  deriving DecidableEq

/-! ### Bytes on the wire — UTF-8

`QByteArray.data()` yields raw bytes; `bytes.decode("utf-8")` is CPython's
strict UTF-8 decoder, which raises `UnicodeDecodeError` on any byte list that
is not the UTF-8 encoding of a sequence of Unicode scalar values: an invalid
lead or continuation byte, a truncated sequence, an overlong form, an encoded
surrogate, or a value beyond U+10FFFF.  A byte is a natural number below
256. -/

/-- The UTF-8 encoding of one Unicode scalar value (one to four bytes). -/
def utf8EncodeChar (c : Char) : List Nat :=
  let v := c.toNat
  if v < 0x80 then [v]
  else if v < 0x800 then [0xC0 + v / 64, 0x80 + v % 64]
  else if v < 0x10000 then
    [0xE0 + v / 4096, 0x80 + v / 64 % 64, 0x80 + v % 64]
  else
    [0xF0 + v / 262144, 0x80 + v / 4096 % 64, 0x80 + v / 64 % 64, 0x80 + v % 64]

/-- UTF-8 encoding of a character sequence. -/
def utf8EncodeList : List Char → List Nat
  | [] => []
  | c :: cs => utf8EncodeChar c ++ utf8EncodeList cs

/-- `str.encode("utf-8")`. -/
def utf8Encode (s : String) : List Nat := utf8EncodeList s.data

/-- A UTF-8 continuation byte, `0b10xxxxxx`. -/
def isContByte (b : Nat) : Bool := 0x80 ≤ b && b < 0xC0

/-- Finish a two-byte sequence whose lead carried the payload `hi`
(`0xC2 ≤ lead ≤ 0xDF`, so the value is at least U+0080: never overlong). -/
def utf8Tail1 (hi : Nat) : List Nat → Option (Char × List Nat)
  | b2 :: t =>
    if isContByte b2 then some (Char.ofNat (hi * 64 + (b2 - 0x80)), t) else none
  | [] => none

/-- Finish a three-byte sequence: two continuation bytes, then reject
overlong values and surrogates. -/
def utf8Tail2 (hi : Nat) : List Nat → Option (Char × List Nat)
  | b2 :: b3 :: t =>
    if isContByte b2 && isContByte b3 then
      let v := hi * 4096 + (b2 - 0x80) * 64 + (b3 - 0x80)
      if v < 0x800 then none
      else if 0xD800 ≤ v && v < 0xE000 then none
      else some (Char.ofNat v, t)
    else none
  | _ => none

/-- Finish a four-byte sequence: three continuation bytes, then reject
overlong values and values beyond U+10FFFF. -/
def utf8Tail3 (hi : Nat) : List Nat → Option (Char × List Nat)
  | b2 :: b3 :: b4 :: t =>
    if isContByte b2 && isContByte b3 && isContByte b4 then
      let v := hi * 262144 + (b2 - 0x80) * 4096 + (b3 - 0x80) * 64 + (b4 - 0x80)
      if v < 0x10000 then none
      else if 0x110000 ≤ v then none
      else some (Char.ofNat v, t)
    else none
  | _ => none

/-- Strict decoding of one UTF-8-encoded scalar value off the front of a byte
list.  Lead bytes `0x80`–`0xC1` (stray continuation bytes and the two
always-overlong leads) and `0xF5`–`0xFF` are rejected outright. -/
def utf8DecodeOne : List Nat → Option (Char × List Nat)
  | [] => none
  | b1 :: t =>
    if b1 < 0x80 then some (Char.ofNat b1, t)
    else if b1 < 0xC2 then none
    else if b1 < 0xE0 then utf8Tail1 (b1 - 0xC0) t
    else if b1 < 0xF0 then utf8Tail2 (b1 - 0xE0) t
    else if b1 < 0xF5 then utf8Tail3 (b1 - 0xF0) t
    else none

/-- Decode a whole byte list; the fuel bounds the number of decoded scalar
values (at most one per byte). -/
def utf8DecodeAux : Nat → List Nat → Option (List Char)
  | _, [] => some []
  | 0, _ :: _ => none
  | fuel + 1, b :: t =>
    match utf8DecodeOne (b :: t) with
    | none => none
    | some (c, rest) =>
      match utf8DecodeAux fuel rest with
      | none => none
      | some cs => some (c :: cs)

/-- `bytes.decode("utf-8")`: `none` models a raised `UnicodeDecodeError`. -/
def utf8Decode (bs : List Nat) : Option String :=
  match utf8DecodeAux bs.length bs with
  | some cs => some (String.mk cs)
  | none => none

/-! ### `node_mailer/models/messaging.py` — `DirectMessaging` -/

/-- The mutable state of a `DirectMessaging` instance: the connections list
plus a counter handing out fresh socket handles (distinct `QTcpSocket`
objects). -/
structure DirectMessagingState where
  nextSocket : Nat
  open_connections : List ReceivingConnection
  deriving DecidableEq

/-- The Qt signals `DirectMessaging` emits. -/
inductive MailerSignal where
  | message_received (mail : NodeMailerMail)
  | shutdown_received

/-- The socket events Qt delivers to `DirectMessaging`, at character
granularity: a `readyRead` here carries a chunk that decoded, as a `String`.
`WireEvent` below carries the raw bytes; `runBytes_toWire` relates the two
views. -/
inductive NetEvent where
  | newConnection
  | readyRead (socket : Nat) (data : String)
  | disconnected (socket : Nat)

/-- The same socket events at the wire level: a `readyRead` delivers the raw
bytes `readAll().data()` returns. -/
inductive WireEvent where
  | newConnection
  | readyRead (socket : Nat) (bs : List Nat)
  | disconnected (socket : Nat)

/-- View a decoded-chunk event as the wire event carrying its UTF-8 bytes. -/
def NetEvent.toWire : NetEvent → WireEvent
  | .newConnection => .newConnection
  | .readyRead socket data => .readyRead socket (utf8Encode data)
  | .disconnected socket => .disconnected socket

namespace DirectMessaging

/-- `on_new_connection`: wrap the pending socket in a `ReceivingConnection`
with an empty buffer and append it to `open_connections`. -/
def on_new_connection (s : DirectMessagingState) : DirectMessagingState :=
  ⟨s.nextSocket + 1, s.open_connections ++ [⟨s.nextSocket, ""⟩]⟩

/-- The buffer-extending assignment `connection.message += <decoded text>`
that `on_message_received` performs once its chunk has decoded. -/
def append_decoded_chunk (s : DirectMessagingState) (socket : Nat) (data : String) :
    DirectMessagingState :=
  { s with
    open_connections := s.open_connections.map
      (fun c => if c.socket == socket then ⟨c.socket, c.message ++ data⟩ else c) }

/-- `on_message_received` (`messaging.py:56`-`62`):
`connection.message += connection.socket.readAll().data().decode("utf-8")`.
The bytes of every read are decoded immediately; when a chunk is cut inside a
multi-byte character, `bytes.decode` raises a `UnicodeDecodeError` (a
`ValueError`) out of the slot, the assignment never runs, and the chunk's
bytes are lost. -/
def on_message_received (s : DirectMessagingState) (socket : Nat) (bs : List Nat) :
    DirectMessagingState × Option PyErr :=
  match utf8Decode bs with
  | some text => (append_decoded_chunk s socket text, none)
  | none => (s, some .valueError)

/-- `process_received_message`, run when the sending connection closes:
`json.loads` the buffer (silently returning on `JSONDecodeError`), emit
`shutdown_received` and return on `type == "shutdown"`, otherwise build
`NodeMailerMail(**parsed_message["mail"])`, emit `message_received` and remove
the connection.  The result is the new state, the signals emitted, and the
exception that escaped the slot, if any. -/
def process_received_message (s : DirectMessagingState) (socket : Nat) :
    DirectMessagingState × List MailerSignal × Option PyErr :=
  match s.open_connections.find? (fun c => c.socket == socket) with
  | none => (s, [], none)
  | some conn =>
    match pyLoads conn.message with
    | none => (s, [], none)
    | some parsed =>
      match pyGetItem parsed "type" with
      | .error e => (s, [], some e)
      | .ok t =>
        if jbeq t (Json.str "shutdown") then (s, [.shutdown_received], none)
        else
          match pyGetItem parsed "mail" with
          | .error e => (s, [], some e)
          | .ok mailJson =>
            match mkNodeMailerMail mailJson with
            | .error e => (s, [], some e)
            | .ok mail =>
              ({ s with open_connections := s.open_connections.erase conn },
               [.message_received mail], none)

/-- One character-granularity event against the `DirectMessaging` state. -/
def step (s : DirectMessagingState) : NetEvent → DirectMessagingState × List MailerSignal × Option PyErr
  | .newConnection => (on_new_connection s, [], none)
  | .readyRead socket data => (append_decoded_chunk s socket data, [], none)
  | .disconnected socket => process_received_message s socket

/-- A whole character-granularity event sequence: final state, all signals in
order, all escaped exceptions in order. -/
def run (s : DirectMessagingState) : List NetEvent → DirectMessagingState × List MailerSignal × List PyErr
  | [] => (s, [], [])
  | e :: rest =>
    let r1 := step s e
    let r2 := run r1.1 rest
    (r2.1, r1.2.1 ++ r2.2.1, r1.2.2.toList ++ r2.2.2)

/-- One wire event against the `DirectMessaging` state. -/
def stepBytes (s : DirectMessagingState) :
    WireEvent → DirectMessagingState × List MailerSignal × Option PyErr
  | .newConnection => (on_new_connection s, [], none)
  | .readyRead socket bs =>
    ((on_message_received s socket bs).1, [], (on_message_received s socket bs).2)
  | .disconnected socket => process_received_message s socket

/-- A whole wire-event sequence: final state, all signals in order, all
escaped exceptions in order. -/
def runBytes (s : DirectMessagingState) :
    List WireEvent → DirectMessagingState × List MailerSignal × List PyErr
  | [] => (s, [], [])
  | e :: rest =>
    let r1 := stepBytes s e
    let r2 := runBytes r1.1 rest
    (r2.1, r1.2.1 ++ r2.2.1, r1.2.2.toList ++ r2.2.2)

/-- `send_mail_to_client`: the exact bytes written to the socket after a
successful connect — `json.dumps({"type": "mail", "mail": mail.as_dict()})`. -/
def send_mail_to_client_payload (mail : NodeMailerMail) : String :=
  pyDumps (Json.obj [("type", Json.str "mail"), ("mail", mail.as_dict)])

/-- `send_shutdown_message`: the bytes written to the local instance. -/
def send_shutdown_message_payload : String :=
  pyDumps (Json.obj [("type", Json.str "shutdown")])

end DirectMessaging

/-! ### `node_mailer/models/discovery.py` — `ClientDiscovery` -/

/-- `NodeMailerClient` (`data_models.py`): a discovered peer.  `name` comes
from the datagram's decoded `"name"` entry (any JSON value — Python does not
check), `last_seen_timestamp` is `datetime.now().timestamp()`, modelled as an
exact rational. -/
structure NodeMailerClient where
  name : Json
  ip_address : String
  favorite : Bool
  last_seen_timestamp : ℚ

/-- A received UDP datagram: its payload (UTF-8 decoded) and sender address. -/
structure Datagram where
  data : String
  senderAddress : String

namespace ClientDiscovery

/-- `get_broadcast_message`:
`json.dumps({"type": "node_mailer_instance", "name": os.getlogin()})`. -/
def get_broadcast_message (login_name : String) : String :=
  pyDumps (Json.obj [("type", Json.str "node_mailer_instance"), ("name", Json.str login_name)])

/-- `broadcast_presence` writes `self.broadcast_message`, computed once at
startup by `get_broadcast_message`. -/
def broadcast_presence_payload (login_name : String) : String :=
  get_broadcast_message login_name

/-- `remove_stale_clients`: keep exactly the clients seen less than 30 seconds
ago. -/
def remove_stale_clients (now : ℚ) (clients : List NodeMailerClient) : List NodeMailerClient :=
  clients.filter (fun c => now - c.last_seen_timestamp < 30)

/-- `sort_by_favorites`: `list.sort(key=favorite, reverse=True)`.  Python's
sort is stable, and a stable sort on a Boolean key with `reverse=True` is
exactly the stable partition with favorites first. -/
def sort_by_favorites (clients : List NodeMailerClient) : List NodeMailerClient :=
  clients.filter (fun c => c.favorite) ++ clients.filter (fun c => !c.favorite)

/-- `get_stored_client_from_name`: first stored client whose `name` compares
`==` to the given one, else `None`. -/
def get_stored_client_from_name (clients : List NodeMailerClient) (n : Json) :
    Option NodeMailerClient :=
  clients.find? (fun c => jbeq c.name n)

/-- `update_client_last_seen_timestamp` mutates the found client object in
place: the first client with that name gets `last_seen_timestamp = now`. -/
def update_client_last_seen_timestamp :
    List NodeMailerClient → Json → ℚ → List NodeMailerClient
  | [], _, _ => []
  | c :: rest, n, now =>
    if jbeq c.name n then { c with last_seen_timestamp := now } :: rest
    else c :: update_client_last_seen_timestamp rest n now

/-- `is_favorite`: membership (Python `in`, i.e. any `==`-equal element) in
the favorites list persisted in `QSettings` (the JSON string round-trip of the
stored array is abstracted to the parsed list itself). -/
def is_favorite (favorites : List Json) (client_name : Json) : Bool :=
  favorites.any (fun x => jbeq x client_name)

/-- `add_favorite`: `parsed_favorites.append(client_name)`. -/
def add_favorite (favorites : List Json) (client_name : Json) : List Json :=
  favorites ++ [client_name]

/-- `remove_favorite`: `parsed_favorites.remove(client_name)` — `ValueError`
when absent. -/
def remove_favorite (favorites : List Json) (client_name : Json) : Except PyErr (List Json) :=
  pyListRemove favorites client_name

/-- `process_datagram`: decode the payload (`JSONDecodeError` → silently
keep the registry), read `parsed_data["name"]` (`KeyError` → silently keep;
any other exception, e.g. `TypeError` on a non-dict document, escapes),
then either refresh the existing client's `last_seen_timestamp` or append a
new `NodeMailerClient` and re-sort by favorites. -/
def process_datagram (favorites : List Json) (now : ℚ) (datagram : Datagram)
    (clients : List NodeMailerClient) : Except PyErr (List NodeMailerClient) :=
  match pyLoads datagram.data with
  | none => .ok clients
  | some parsed =>
    match pyGetItem parsed "name" with
    | .error (.keyError _) => .ok clients
    | .error e => .error e
    | .ok mailer_client_name =>
      match get_stored_client_from_name clients mailer_client_name with
      | some _ => .ok (update_client_last_seen_timestamp clients mailer_client_name now)
      | none =>
        .ok (sort_by_favorites (clients ++
          [⟨mailer_client_name, datagram.senderAddress,
            is_favorite favorites mailer_client_name, now⟩]))

/-- `should_datagram_be_processed`: drop datagrams whose sender address is one
of the local machine's addresses (computed once at startup). -/
def should_datagram_be_processed (local_addresses : List String) (datagram : Datagram) : Bool :=
  !(local_addresses.contains datagram.senderAddress)

/-- One datagram through `on_datagram_received`: the self-suppression check,
then `process_datagram`. -/
def handle_datagram (local_addresses : List String) (favorites : List Json) (now : ℚ)
    (datagram : Datagram) (clients : List NodeMailerClient) :
    Except PyErr (List NodeMailerClient) :=
  if should_datagram_be_processed local_addresses datagram then
    process_datagram favorites now datagram clients
  else .ok clients

/-- `toggle_favorite` at row `i`: update the favorites store (a missing index
is Python's `IndexError`, removing an absent favorite a `ValueError`), flip
the client's flag in place and re-sort.  Returns the new favorites store and
registry. -/
def toggle_favorite (favorites : List Json) (clients : List NodeMailerClient) (i : Nat) :
    Except PyErr (List Json × List NodeMailerClient) :=
  match clients.get? i with
  | none => .error .indexError
  | some client =>
    let flipped := clients.set i { client with favorite := !client.favorite }
    if client.favorite then
      match remove_favorite favorites client.name with
      | .error e => .error e
      | .ok favorites2 => .ok (favorites2, sort_by_favorites flipped)
    else .ok (add_favorite favorites client.name, sort_by_favorites flipped)

end ClientDiscovery

/-- The three registry mutations of the spec's sorting invariant: a processed
presence datagram, stale-client removal, and a favorite toggle. -/
inductive RegistryMutation where
  | datagram (favorites : List Json) (now : ℚ) (dgram : Datagram)
  | removeStale (now : ℚ)
  | toggleFavorite (favorites : List Json) (i : Nat)

/-- Apply a mutation to the registry (through the code's own functions). -/
def applyMutation : RegistryMutation → List NodeMailerClient →
    Except PyErr (List NodeMailerClient)
  | .datagram favorites now dgram, clients =>
    ClientDiscovery.process_datagram favorites now dgram clients
  | .removeStale now, clients => .ok (ClientDiscovery.remove_stale_clients now clients)
  | .toggleFavorite favorites i, clients =>
    (ClientDiscovery.toggle_favorite favorites clients i).map Prod.snd

/-- The same mutation without the final favorites re-sort: the reference
point for the stability half of the sorting invariant. -/
def rawMutation : RegistryMutation → List NodeMailerClient →
    Except PyErr (List NodeMailerClient)
  | .datagram favorites now dgram, clients =>
    match pyLoads dgram.data with
    | none => .ok clients
    | some parsed =>
      match pyGetItem parsed "name" with
      | .error (.keyError _) => .ok clients
      | .error e => .error e
      | .ok n =>
        match ClientDiscovery.get_stored_client_from_name clients n with
        | some _ => .ok (ClientDiscovery.update_client_last_seen_timestamp clients n now)
        | none =>
          .ok (clients ++ [⟨n, dgram.senderAddress, ClientDiscovery.is_favorite favorites n, now⟩])
  | .removeStale now, clients => .ok (ClientDiscovery.remove_stale_clients now clients)
  | .toggleFavorite favorites i, clients =>
    match clients.get? i with
    | none => .error .indexError
    | some client =>
      if client.favorite then
        match ClientDiscovery.remove_favorite favorites client.name with
        | .error e => .error e
        | .ok _ => .ok (clients.set i { client with favorite := !client.favorite })
      else .ok (clients.set i { client with favorite := !client.favorite })

/-! ### Helper lemmas about the models -/

theorem find?_append_fresh {α : Type} (p : α → Bool) (pre rest : List α)
    (h : ∀ c ∈ pre, p c = false) :
    List.find? p (pre ++ rest) = List.find? p rest := by
  induction pre with
  | nil => rfl
  | cons c pre' ih =>
    rw [List.cons_append, List.find?_cons, h c (by simp)]
    exact ih (fun c2 hc2 => h c2 (by simp [hc2]))

theorem update_last_seen_append (pre rest : List NodeMailerClient) (n : Json) (now : ℚ)
    (h : ∀ c ∈ pre, jbeq c.name n = false) :
    ClientDiscovery.update_client_last_seen_timestamp (pre ++ rest) n now
      = pre ++ ClientDiscovery.update_client_last_seen_timestamp rest n now := by
  induction pre with
  | nil => rfl
  | cons c pre' ih =>
    rw [List.cons_append, ClientDiscovery.update_client_last_seen_timestamp,
      h c (by simp), if_neg (by simp)]
    rw [List.cons_append, ih (fun c2 hc2 => h c2 (by simp [hc2]))]

/-! ### Claim theorems -/

/-- C4: `remove_stale_clients` executed at time `now` removes a peer iff
`now - lastSeen ≥ 30` seconds; a peer aged exactly 30s is removed, one aged
29.999s is kept, and surviving peers are the below-threshold ones unchanged. -/
theorem C4_stale_boundary :
    (∀ (clients : List NodeMailerClient) (now : ℚ) (c : NodeMailerClient),
      c ∈ ClientDiscovery.remove_stale_clients now clients
        ↔ c ∈ clients ∧ ¬(30 ≤ now - c.last_seen_timestamp))
    ∧ ClientDiscovery.remove_stale_clients 30 [⟨Json.str "p", "ip", false, 0⟩] = []
    ∧ ClientDiscovery.remove_stale_clients (29999/1000 : ℚ) [⟨Json.str "p", "ip", false, 0⟩]
        = [⟨Json.str "p", "ip", false, 0⟩] := by
  refine ⟨?_, ?_, ?_⟩
  · intro clients now c
    simp [ClientDiscovery.remove_stale_clients, List.mem_filter, not_le]
  · simp [ClientDiscovery.remove_stale_clients]
  · simp [ClientDiscovery.remove_stale_clients]
    norm_num

/-- C9: a presence datagram whose sender address is in the startup-computed
local-address set is discarded before processing: the registry is left
completely unchanged. -/
theorem C9_self_suppression (local_addresses : List String) (favorites : List Json)
    (now : ℚ) (datagram : Datagram) (clients : List NodeMailerClient)
    (h : datagram.senderAddress ∈ local_addresses) :
    ClientDiscovery.handle_datagram local_addresses favorites now datagram clients
      = .ok clients := by
  rw [ClientDiscovery.handle_datagram, ClientDiscovery.should_datagram_be_processed]
  simp [h]

theorem C9_self_suppression_witness :
    ("10.0.0.5" : String) ∈ ["10.0.0.5", "192.168.0.2"]
    ∧ ClientDiscovery.handle_datagram ["10.0.0.5", "192.168.0.2"] [] 7
        ⟨"\x7b\"type\": \"node_mailer_instance\", \"name\": \"alice\"\x7d", "10.0.0.5"⟩
        [⟨Json.str "bob", "10.0.0.9", false, 0⟩]
      = .ok [⟨Json.str "bob", "10.0.0.9", false, 0⟩] :=
  ⟨by decide,
   C9_self_suppression ["10.0.0.5", "192.168.0.2"] [] 7
     ⟨"\x7b\"type\": \"node_mailer_instance\", \"name\": \"alice\"\x7d", "10.0.0.5"⟩
     [⟨Json.str "bob", "10.0.0.9", false, 0⟩] (by decide)⟩

/-- C5 fails as stated: the broadcast payload's type tag is
`"node_mailer_instance"` (as §6 of the spec says), not the
`"instance_announcement"` record of §4.2; at login name `"alice"` the payload
decodes to a `"node_mailer_instance"` record and differs from the serialized
`"instance_announcement"` record. -/
theorem C5_counterexample :
    pyLoads (ClientDiscovery.get_broadcast_message "alice")
      = some (Json.obj [("type", Json.str "node_mailer_instance"), ("name", Json.str "alice")])
    ∧ Json.str "node_mailer_instance" ≠ Json.str "instance_announcement"
    ∧ ClientDiscovery.get_broadcast_message "alice"
        ≠ pyDumps (Json.obj [("type", Json.str "instance_announcement"),
            ("name", Json.str "alice")]) := by
  refine ⟨rfl, ?_, ?_⟩
  · intro h
    exact absurd (congrArg (fun j => match j with | Json.str s => s | _ => "") h)
      (by decide)
  · decide

/-- C5 amended: every datagram the `PresenceBroadcaster` sends is exactly
`json.dumps({"type": "node_mailer_instance", "name": <login name>})`, and it
decodes to that record. -/
theorem C5_broadcast_payload (login_name : String) :
    ClientDiscovery.broadcast_presence_payload login_name
      = pyDumps (Json.obj [("type", Json.str "node_mailer_instance"),
          ("name", Json.str login_name)])
    ∧ pyLoads (ClientDiscovery.broadcast_presence_payload login_name)
      = some (Json.obj [("type", Json.str "node_mailer_instance"),
          ("name", Json.str login_name)]) :=
  ⟨rfl, pyLoads_pyDumps _ rfl⟩

/-- C7: serializing a `NodeMailerMail` with `as_json` (the sender-side JSON
encoding) and decoding the same bytes with `json.loads` followed by the
receiver's `NodeMailerMail(**...)` construction recovers a mail equal in all
four fields, for every choice of the declared field types. -/
theorem C7_mail_roundtrip (sender_name message node_string : String) (timestamp : Int) :
    pyLoads (mkTypedMail sender_name message node_string timestamp).as_json
      = some (mkTypedMail sender_name message node_string timestamp).as_dict
    ∧ mkNodeMailerMail (mkTypedMail sender_name message node_string timestamp).as_dict
      = .ok (mkTypedMail sender_name message node_string timestamp) :=
  ⟨pyLoads_pyDumps _ rfl, rfl⟩

/-- C3 fails as stated: with one open connection whose buffer `"not json"`
fails to decode at close, no message is emitted and no error is raised, but
the connection is NOT removed from `open_connections` — the handler returns
before the `remove` call, so the entry stays. -/
theorem C3_counterexample :
    DirectMessaging.process_received_message ⟨1, [⟨0, "not json"⟩]⟩ 0
      = (⟨1, [⟨0, "not json"⟩]⟩, [], none)
    ∧ (⟨1, [⟨0, "not json"⟩]⟩ : DirectMessagingState).open_connections
      = [⟨0, "not json"⟩] :=
  ⟨rfl, rfl⟩

/-- C3 amended: for every inbound connection whose accumulated buffer fails to
decode when the peer closes, no signal is emitted and no exception escapes,
and the whole state — including the open-connections set, which still holds
the connection — is unchanged; unrelated connections are unaffected. -/
theorem C3_malformed_close (s : DirectMessagingState) (socket : Nat)
    (conn : ReceivingConnection)
    (hfind : s.open_connections.find? (fun c => c.socket == socket) = some conn)
    (hbad : pyLoads conn.message = none) :
    DirectMessaging.process_received_message s socket = (s, [], none)
    ∧ conn ∈ s.open_connections := by
  constructor
  · rw [DirectMessaging.process_received_message, hfind]
    simp only [hbad]
  · exact List.mem_of_find?_eq_some hfind

theorem C3_malformed_close_witness :
    DirectMessaging.process_received_message ⟨2, [⟨0, "ok"⟩, ⟨1, "not json"⟩]⟩ 1
      = (⟨2, [⟨0, "ok"⟩, ⟨1, "not json"⟩]⟩, [], none)
    ∧ (⟨1, "not json"⟩ : ReceivingConnection) ∈
        (⟨2, [⟨0, "ok"⟩, ⟨1, "not json"⟩]⟩ : DirectMessagingState).open_connections :=
  C3_malformed_close ⟨2, [⟨0, "ok"⟩, ⟨1, "not json"⟩]⟩ 1 ⟨1, "not json"⟩ rfl rfl

/-- C2 fails as stated: re-observing an existing name does NOT update the
stored address.  Peer `"n"` was stored from `1.1.1.1`; a valid presence
datagram for `"n"` arriving from `2.2.2.2` only refreshes `lastSeen` — the
entry's address stays `1.1.1.1`, not the sender's `2.2.2.2`. -/
theorem C2_counterexample :
    ClientDiscovery.handle_datagram [] [] 5
        ⟨"\x7b\"type\": \"node_mailer_instance\", \"name\": \"n\"\x7d", "2.2.2.2"⟩
        [⟨Json.str "n", "1.1.1.1", false, 0⟩]
      = .ok [⟨Json.str "n", "1.1.1.1", false, 5⟩]
    ∧ ("1.1.1.1" : String) ≠ "2.2.2.2" :=
  ⟨rfl, by decide⟩

/-- C2 amended: processing a valid presence observation for an existing name
`n` (sender not self-suppressed) leaves exactly one entry for `n`, sets that
entry's `lastSeen` to the current time, leaves its address (and favorite flag)
unchanged — the address is NOT updated to the sender's — creates no duplicate,
and leaves every other entry untouched. -/
theorem C2_upsert_existing (local_addresses : List String) (favorites : List Json)
    (now : ℚ) (datagram : Datagram) (n : String) (parsed : Json)
    (pre post : List NodeMailerClient) (c0 : NodeMailerClient)
    (hloc : local_addresses.contains datagram.senderAddress = false)
    (hload : pyLoads datagram.data = some parsed)
    (hname : pyGetItem parsed "name" = .ok (Json.str n))
    (hc0 : c0.name = Json.str n)
    (hpre : ∀ c ∈ pre, jbeq c.name (Json.str n) = false)
    (hpost : ∀ c ∈ post, jbeq c.name (Json.str n) = false) :
    ClientDiscovery.handle_datagram local_addresses favorites now datagram
        (pre ++ c0 :: post)
      = .ok (pre ++ { c0 with last_seen_timestamp := now } :: post)
    ∧ ((pre ++ { c0 with last_seen_timestamp := now } :: post).filter
        (fun c => jbeq c.name (Json.str n))).length = 1 := by
  have hc0beq : jbeq c0.name (Json.str n) = true := by
    rw [hc0]
    simp [jbeq]
  constructor
  · rw [ClientDiscovery.handle_datagram, ClientDiscovery.should_datagram_be_processed, hloc]
    rw [if_pos (by decide)]
    rw [ClientDiscovery.process_datagram, hload]
    simp only [hname]
    rw [ClientDiscovery.get_stored_client_from_name, find?_append_fresh _ pre _ hpre,
      List.find?_cons, hc0beq]
    simp only []
    rw [update_last_seen_append pre _ _ _ hpre,
      ClientDiscovery.update_client_last_seen_timestamp, hc0beq, if_pos rfl]
  · have h1 : pre.filter (fun c => jbeq c.name (Json.str n)) = [] :=
      List.filter_eq_nil_iff.mpr (fun c hc => by simp [hpre c hc])
    have h2 : post.filter (fun c => jbeq c.name (Json.str n)) = [] :=
      List.filter_eq_nil_iff.mpr (fun c hc => by simp [hpost c hc])
    rw [List.filter_append, List.filter_cons, h1]
    simp only [hc0beq, if_pos]
    rw [h2]
    rfl

theorem C2_upsert_existing_witness :
    ClientDiscovery.handle_datagram [] [] 5
        ⟨"\x7b\"type\": \"node_mailer_instance\", \"name\": \"n\"\x7d", "2.2.2.2"⟩
        [⟨Json.str "n", "1.1.1.1", false, 0⟩]
      = .ok [⟨Json.str "n", "1.1.1.1", false, 5⟩]
    ∧ (([⟨Json.str "n", "1.1.1.1", false, 5⟩] : List NodeMailerClient).filter
        (fun c => jbeq c.name (Json.str "n"))).length = 1 := by
  have h := C2_upsert_existing [] [] 5
    ⟨"\x7b\"type\": \"node_mailer_instance\", \"name\": \"n\"\x7d", "2.2.2.2"⟩ "n"
    (Json.obj [("type", Json.str "node_mailer_instance"), ("name", Json.str "n")])
    [] [] ⟨Json.str "n", "1.1.1.1", false, 0⟩
    rfl rfl rfl rfl (by simp) (by simp)
  simpa using h

/-- Decoded document shape: a dict that has a `"type"` entry. -/
def hasTypeKey (j : Json) : Bool :=
  match j with
  | .obj kvs => (dictLookup kvs "type").isSome
  | _ => false

/-- Decoded `"mail"` value shape that `NodeMailerMail(**...)` accepts: a dict
with exactly the four dataclass field names as keys. -/
def wellFormedMailValue (j : Json) : Bool :=
  match j with
  | .obj kvs =>
    (dictLookup kvs "sender_name").isSome && (dictLookup kvs "message").isSome &&
    (dictLookup kvs "node_string").isSome && (dictLookup kvs "timestamp").isSome &&
    kvs.length == 4
  | _ => false

theorem pyGetItem_error_of_no_key (j : Json) (h : hasTypeKey j = false) :
    ∃ e, pyGetItem j "type" = .error e := by
  cases j with
  | obj kvs =>
    rcases hx : dictLookup kvs "type" with _ | v
    · exact ⟨.keyError "type", by rw [pyGetItem, hx]⟩
    · rw [hasTypeKey, hx] at h
      simp at h
  | null => exact ⟨.typeError, rfl⟩
  | bool b => exact ⟨.typeError, rfl⟩
  | int n => exact ⟨.typeError, rfl⟩
  | jfloat tok => exact ⟨.typeError, rfl⟩
  | str s => exact ⟨.typeError, rfl⟩
  | arr es => exact ⟨.typeError, rfl⟩

theorem mkNodeMailerMail_error_of_not_wf (j : Json) (h : wellFormedMailValue j = false) :
    ∃ e, mkNodeMailerMail j = .error e := by
  cases j with
  | obj kvs =>
    rw [mkNodeMailerMail]
    rcases h1 : dictLookup kvs "sender_name" with _ | a
    · exact ⟨.typeError, by simp [h1]⟩
    rcases h2 : dictLookup kvs "message" with _ | b
    · exact ⟨.typeError, by simp [h1, h2]⟩
    rcases h3 : dictLookup kvs "node_string" with _ | c
    · exact ⟨.typeError, by simp [h1, h2, h3]⟩
    rcases h4 : dictLookup kvs "timestamp" with _ | d
    · exact ⟨.typeError, by simp [h1, h2, h3, h4]⟩
    · refine ⟨.typeError, ?_⟩
      simp only [wellFormedMailValue, h1, h2, h3, h4, Option.isSome_some,
        Bool.true_and] at h
      have hlen : kvs.length ≠ 4 := by simpa using h
      simp [h1, h2, h3, h4, hlen]
  | null => exact ⟨.typeError, rfl⟩
  | bool b => exact ⟨.typeError, rfl⟩
  | int n => exact ⟨.typeError, rfl⟩
  | jfloat tok => exact ⟨.typeError, rfl⟩
  | str s => exact ⟨.typeError, rfl⟩
  | arr es => exact ⟨.typeError, rfl⟩

/-- C10 (implicit): the silent discard at connection close covers only JSON
syntax failures.  If the buffer parses as valid JSON but is not a dict with a
`"type"` key, or its `"type"` is something other than `"shutdown"` while the
`"mail"` entry is missing or not a well-formed mail dict, then the close
handler raises an uncaught `KeyError`/`TypeError`: no signal is emitted and
the connection is not removed from `open_connections` (the state is
unchanged). -/
theorem C10_non_syntax_failures_raise (s : DirectMessagingState) (socket : Nat)
    (conn : ReceivingConnection) (parsed : Json)
    (hfind : s.open_connections.find? (fun c => c.socket == socket) = some conn)
    (hload : pyLoads conn.message = some parsed)
    (hdom : hasTypeKey parsed = false
      ∨ ∃ t, pyGetItem parsed "type" = .ok t ∧ jbeq t (Json.str "shutdown") = false
          ∧ ((∃ e, pyGetItem parsed "mail" = .error e)
             ∨ ∃ mj, pyGetItem parsed "mail" = .ok mj ∧ wellFormedMailValue mj = false)) :
    ∃ e, DirectMessaging.process_received_message s socket = (s, [], some e) := by
  rw [DirectMessaging.process_received_message, hfind]
  rcases hdom with h | ⟨t, ht, hts, hmail⟩
  · obtain ⟨e, he⟩ := pyGetItem_error_of_no_key parsed h
    exact ⟨e, by simp [hload, he]⟩
  · rcases hmail with ⟨e, he⟩ | ⟨mj, hmj, hwfm⟩
    · exact ⟨e, by simp [hload, ht, hts, he]⟩
    · obtain ⟨e, he⟩ := mkNodeMailerMail_error_of_not_wf mj hwfm
      exact ⟨e, by simp [hload, ht, hts, hmj, he]⟩

theorem C10_non_syntax_failures_raise_witness :
    ∃ e, DirectMessaging.process_received_message ⟨1, [⟨0, "\x7b\x7d"⟩]⟩ 0
      = (⟨1, [⟨0, "\x7b\x7d"⟩]⟩, [], some e) :=
  C10_non_syntax_failures_raise ⟨1, [⟨0, "\x7b\x7d"⟩]⟩ 0 ⟨0, "\x7b\x7d"⟩ (Json.obj [])
    rfl rfl (Or.inl rfl)

/-- Socket handles in the open set are always below the fresh-handle counter
(true of every reachable `DirectMessaging` state). -/
def socketsBelow (s : DirectMessagingState) : Prop :=
  ∀ c ∈ s.open_connections, c.socket < s.nextSocket

theorem map_fresh_id (l : List ReceivingConnection) (n : Nat) (data : String)
    (h : ∀ c ∈ l, (c.socket == n) = false) :
    l.map (fun c => if c.socket == n then (⟨c.socket, c.message ++ data⟩ : ReceivingConnection)
      else c) = l := by
  induction l with
  | nil => rfl
  | cons c rest ih =>
    rw [List.map_cons, if_neg (by simp [h c (by simp)]), ih (fun c2 hc2 => h c2 (by simp [hc2]))]

theorem erase_append_fresh (l : List ReceivingConnection) (x : ReceivingConnection)
    (h : ∀ c ∈ l, c ≠ x) : (l ++ [x]).erase x = l := by
  induction l with
  | nil => simp
  | cons c rest ih =>
    rw [List.cons_append, List.erase_cons, if_neg (by simp [h c (by simp)]),
      ih (fun c2 hc2 => h c2 (by simp [hc2]))]

theorem run_append (s : DirectMessagingState) (a b : List NetEvent) :
    DirectMessaging.run s (a ++ b)
      = ((DirectMessaging.run (DirectMessaging.run s a).1 b).1,
         (DirectMessaging.run s a).2.1
           ++ (DirectMessaging.run (DirectMessaging.run s a).1 b).2.1,
         (DirectMessaging.run s a).2.2
           ++ (DirectMessaging.run (DirectMessaging.run s a).1 b).2.2) := by
  induction a generalizing s with
  | nil => simp [DirectMessaging.run]
  | cons e a' ih =>
    rw [List.cons_append]
    simp only [DirectMessaging.run]
    rw [ih (DirectMessaging.step s e).1]
    simp [List.append_assoc]

theorem run_reads (chunks : List String) :
    ∀ (nextS n : Nat) (l : List ReceivingConnection) (buf : String),
    (∀ c ∈ l, (c.socket == n) = false) →
    DirectMessaging.run ⟨nextS, l ++ [⟨n, buf⟩]⟩ (chunks.map (NetEvent.readyRead n))
      = (⟨nextS, l ++ [⟨n, chunks.foldl (fun a c => a ++ c) buf⟩]⟩, [], []) := by
  induction chunks with
  | nil => intro nextS n l buf _; simp [DirectMessaging.run]
  | cons c1 cs ih =>
    intro nextS n l buf hfresh
    rw [List.map_cons]
    simp only [DirectMessaging.run, DirectMessaging.step, DirectMessaging.append_decoded_chunk]
    have hmap : (l ++ [(⟨n, buf⟩ : ReceivingConnection)]).map
        (fun c => if c.socket == n then (⟨c.socket, c.message ++ c1⟩ : ReceivingConnection)
          else c) = l ++ [⟨n, buf ++ c1⟩] := by
      rw [List.map_append, map_fresh_id l n c1 hfresh]
      simp
    rw [hmap, ih nextS n l (buf ++ c1) hfresh]
    simp

theorem run_cons (s : DirectMessagingState) (e : NetEvent) (rest : List NetEvent) :
    DirectMessaging.run s (e :: rest)
      = ((DirectMessaging.run (DirectMessaging.step s e).1 rest).1,
         (DirectMessaging.step s e).2.1
           ++ (DirectMessaging.run (DirectMessaging.step s e).1 rest).2.1,
         (DirectMessaging.step s e).2.2.toList
           ++ (DirectMessaging.run (DirectMessaging.step s e).1 rest).2.2) := rfl

theorem utf8EncodeChar_ne_nil (c : Char) : utf8EncodeChar c ≠ [] := by
  simp only [utf8EncodeChar]
  split_ifs <;> simp

theorem utf8DecodeOne_enc (c : Char) (r : List Nat) :
    utf8DecodeOne (utf8EncodeChar c ++ r) = some (c, r) := by
  obtain ⟨hlt, hsur⟩ := char_toNat_facts c
  by_cases h1 : c.toNat < 0x80
  · rw [show utf8EncodeChar c = [c.toNat] from by simp [utf8EncodeChar, h1]]
    simp only [List.singleton_append, utf8DecodeOne]
    rw [if_pos h1, Char.ofNat_toNat]
  · by_cases h2 : c.toNat < 0x800
    · rw [show utf8EncodeChar c = [0xC0 + c.toNat / 64, 0x80 + c.toNat % 64] from by
        simp [utf8EncodeChar, h1, h2]]
      simp only [List.cons_append, List.nil_append, utf8DecodeOne]
      rw [if_neg (by omega), if_neg (by omega), if_pos (by omega)]
      simp only [utf8Tail1]
      rw [if_pos (by simp [isContByte]; omega)]
      have hval : (0xC0 + c.toNat / 64 - 0xC0) * 64 + (0x80 + c.toNat % 64 - 0x80)
          = c.toNat := by omega
      rw [hval, Char.ofNat_toNat]
    · by_cases h3 : c.toNat < 0x10000
      · rw [show utf8EncodeChar c
            = [0xE0 + c.toNat / 4096, 0x80 + c.toNat / 64 % 64, 0x80 + c.toNat % 64] from by
          simp [utf8EncodeChar, h1, h2, h3]]
        simp only [List.cons_append, List.nil_append, utf8DecodeOne]
        rw [if_neg (by omega), if_neg (by omega), if_neg (by omega), if_pos (by omega)]
        simp only [utf8Tail2]
        rw [if_pos (by simp [isContByte]; omega)]
        have hval : (0xE0 + c.toNat / 4096 - 0xE0) * 4096
            + (0x80 + c.toNat / 64 % 64 - 0x80) * 64 + (0x80 + c.toNat % 64 - 0x80)
            = c.toNat := by omega
        rw [hval, if_neg (by omega), if_neg (by simp; omega), Char.ofNat_toNat]
      · rw [show utf8EncodeChar c
            = [0xF0 + c.toNat / 262144, 0x80 + c.toNat / 4096 % 64,
               0x80 + c.toNat / 64 % 64, 0x80 + c.toNat % 64] from by
          simp [utf8EncodeChar, h1, h2, h3]]
        simp only [List.cons_append, List.nil_append, utf8DecodeOne]
        rw [if_neg (by omega), if_neg (by omega), if_neg (by omega), if_neg (by omega),
          if_pos (by omega)]
        simp only [utf8Tail3]
        rw [if_pos (by simp [isContByte]; omega)]
        have hval : (0xF0 + c.toNat / 262144 - 0xF0) * 262144
            + (0x80 + c.toNat / 4096 % 64 - 0x80) * 4096
            + (0x80 + c.toNat / 64 % 64 - 0x80) * 64 + (0x80 + c.toNat % 64 - 0x80)
            = c.toNat := by omega
        rw [hval, if_neg (by omega), if_neg (by omega), Char.ofNat_toNat]

theorem utf8DecodeAux_enc :
    ∀ (cs : List Char) (fuel : Nat), (utf8EncodeList cs).length ≤ fuel →
      utf8DecodeAux fuel (utf8EncodeList cs) = some cs := by
  intro cs
  induction cs with
  | nil =>
    intro fuel _
    cases fuel <;> rfl
  | cons c cs ih =>
    intro fuel hf
    obtain ⟨b, t, hbt⟩ : ∃ b t, utf8EncodeChar c = b :: t := by
      cases h : utf8EncodeChar c with
      | nil => exact absurd h (utf8EncodeChar_ne_nil c)
      | cons b t => exact ⟨b, t, rfl⟩
    have hsplit : utf8EncodeList (c :: cs) = b :: (t ++ utf8EncodeList cs) := by
      rw [show utf8EncodeList (c :: cs) = utf8EncodeChar c ++ utf8EncodeList cs from rfl,
        hbt, List.cons_append]
    cases fuel with
    | zero =>
      rw [hsplit] at hf
      simp at hf
    | succ f =>
      have hlen : (utf8EncodeList cs).length ≤ f := by
        rw [hsplit] at hf
        simp only [List.length_cons, List.length_append] at hf
        omega
      rw [hsplit]
      simp only [utf8DecodeAux]
      rw [show b :: (t ++ utf8EncodeList cs) = utf8EncodeChar c ++ utf8EncodeList cs from by
        rw [hbt, List.cons_append]]
      simp only [utf8DecodeOne_enc, ih f hlen]

theorem utf8Decode_encode (s : String) : utf8Decode (utf8Encode s) = some s := by
  simp only [utf8Decode, utf8Encode,
    utf8DecodeAux_enc s.data (utf8EncodeList s.data).length (Nat.le_refl _), stringMk_data]

theorem on_message_received_encode (s : DirectMessagingState) (n : Nat) (d : String) :
    DirectMessaging.on_message_received s n (utf8Encode d)
      = (DirectMessaging.append_decoded_chunk s n d, none) := by
  simp only [DirectMessaging.on_message_received, utf8Decode_encode]

theorem stepBytes_toWire (s : DirectMessagingState) (e : NetEvent) :
    DirectMessaging.stepBytes s e.toWire = DirectMessaging.step s e := by
  cases e with
  | newConnection => rfl
  | readyRead n d =>
    simp only [NetEvent.toWire, DirectMessaging.stepBytes, on_message_received_encode,
      DirectMessaging.step]
  | disconnected n => rfl

theorem runBytes_toWire (s : DirectMessagingState) (evs : List NetEvent) :
    DirectMessaging.runBytes s (evs.map NetEvent.toWire) = DirectMessaging.run s evs := by
  induction evs generalizing s with
  | nil => rfl
  | cons e rest ih =>
    simp only [List.map_cons, DirectMessaging.runBytes, DirectMessaging.run,
      stepBytes_toWire, ih]

/-- At character granularity the buffer accumulates chunk by chunk: running
any sequence of decoded-chunk reads and the close gives the same run (final
state, signals, escaped exceptions) as a single read of the concatenation and
the close. -/
theorem run_chunks_join (s : DirectMessagingState) (chunks : List String)
    (hwf : socketsBelow s) :
    DirectMessaging.run s (.newConnection ::
        (chunks.map (NetEvent.readyRead s.nextSocket) ++ [.disconnected s.nextSocket]))
      = DirectMessaging.run s [.newConnection,
          .readyRead s.nextSocket (String.join chunks), .disconnected s.nextSocket] := by
  have hfresh : ∀ c ∈ s.open_connections, (c.socket == s.nextSocket) = false := by
    intro c hc
    have := hwf c hc
    simp only [beq_eq_false_iff_ne, ne_eq]
    omega
  have hsingle : [NetEvent.readyRead s.nextSocket (String.join chunks),
      NetEvent.disconnected s.nextSocket]
      = ([String.join chunks].map (NetEvent.readyRead s.nextSocket))
        ++ [NetEvent.disconnected s.nextSocket] := rfl
  rw [run_cons, run_cons,
    show DirectMessaging.step s .newConnection = (DirectMessaging.on_new_connection s, [], none)
      from rfl,
    show DirectMessaging.on_new_connection s
      = ⟨s.nextSocket + 1, s.open_connections ++ [⟨s.nextSocket, ""⟩]⟩ from rfl,
    hsingle, run_append, run_append,
    run_reads chunks (s.nextSocket + 1) s.nextSocket s.open_connections "" hfresh,
    run_reads [String.join chunks] (s.nextSocket + 1) s.nextSocket s.open_connections "" hfresh,
    show chunks.foldl (fun a c => a ++ c) ""
      = [String.join chunks].foldl (fun a c => a ++ c) "" from by simp [String.join]]

/-- C6, counterexample to the claim as stated: decoding does happen at
intermediate reads, and a byte partition of a payload is not delivery-
equivalent to a single read.  The payload is the UTF-8 encoding of the
shutdown envelope with one extra key whose value is `"é"` (bytes
`0xC3 0xA9`), cut between those two bytes.  A single read delivers the whole
payload, and the close emits `shutdown_received`; delivered as the two
chunks, each read's `bytes.decode("utf-8")` raises a `UnicodeDecodeError`
(the two `ValueError`s recorded), both chunks are lost, and the close parses
an empty buffer and discards silently: no signal at all. -/
theorem C6_counterexample :
    (DirectMessaging.runBytes ⟨0, []⟩ [.newConnection,
        .readyRead 0 (utf8Encode "\x7b\"type\": \"shutdown\", \"x\": \"" ++ [0xC3]),
        .readyRead 0 (0xA9 :: utf8Encode "\"\x7d"),
        .disconnected 0]).2.1 = []
    ∧ (DirectMessaging.runBytes ⟨0, []⟩ [.newConnection,
        .readyRead 0 ((utf8Encode "\x7b\"type\": \"shutdown\", \"x\": \"" ++ [0xC3])
          ++ (0xA9 :: utf8Encode "\"\x7d")),
        .disconnected 0]).2.1 = [.shutdown_received]
    ∧ (DirectMessaging.runBytes ⟨0, []⟩ [.newConnection,
        .readyRead 0 (utf8Encode "\x7b\"type\": \"shutdown\", \"x\": \"" ++ [0xC3]),
        .readyRead 0 (0xA9 :: utf8Encode "\"\x7d"),
        .disconnected 0]).2.2 = [PyErr.valueError, PyErr.valueError] :=
  ⟨rfl, rfl, rfl⟩

/-- C6 (amended): framing equivalence at character granularity.  For every
payload and every partition of its UTF-8 bytes whose cuts fall on character
boundaries, delivering the chunks as separate read events on one fresh
inbound connection and then closing produces exactly the same run (final
state, signals, escaped exceptions) as delivering the whole payload in a
single read event and closing.  For a partition cutting inside a multi-byte
character the equivalence fails, because `on_message_received` decodes at
every read, not only at close: `bytes.decode("utf-8")` raises and the chunk
is lost (see the counterexample). -/
theorem C6_framing_equivalence (s : DirectMessagingState) (chunks : List String)
    (hwf : socketsBelow s) :
    DirectMessaging.runBytes s (.newConnection ::
        (chunks.map (fun ck => WireEvent.readyRead s.nextSocket (utf8Encode ck))
          ++ [.disconnected s.nextSocket]))
      = DirectMessaging.runBytes s [.newConnection,
          .readyRead s.nextSocket (utf8Encode (String.join chunks)),
          .disconnected s.nextSocket] := by
  have h1 : (NetEvent.newConnection :: (chunks.map (NetEvent.readyRead s.nextSocket)
        ++ [NetEvent.disconnected s.nextSocket])).map NetEvent.toWire
      = WireEvent.newConnection ::
        (chunks.map (fun ck => WireEvent.readyRead s.nextSocket (utf8Encode ck))
          ++ [WireEvent.disconnected s.nextSocket]) := by
    simp [NetEvent.toWire, List.map_map, Function.comp]
  have h2 : ([NetEvent.newConnection,
        NetEvent.readyRead s.nextSocket (String.join chunks),
        NetEvent.disconnected s.nextSocket]).map NetEvent.toWire
      = [WireEvent.newConnection,
         WireEvent.readyRead s.nextSocket (utf8Encode (String.join chunks)),
         WireEvent.disconnected s.nextSocket] := rfl
  rw [← h1, ← h2, runBytes_toWire, runBytes_toWire]
  exact run_chunks_join s chunks hwf

theorem C6_framing_equivalence_witness :
    socketsBelow ⟨0, []⟩
    ∧ DirectMessaging.runBytes ⟨0, []⟩ (.newConnection ::
        ((["ab", "é"].map (fun ck => WireEvent.readyRead 0 (utf8Encode ck)))
          ++ [.disconnected 0]))
      = DirectMessaging.runBytes ⟨0, []⟩ [.newConnection,
          .readyRead 0 (utf8Encode (String.join ["ab", "é"])), .disconnected 0] :=
  ⟨fun c hc => absurd hc (List.not_mem_nil c),
   C6_framing_equivalence ⟨0, []⟩ ["ab", "é"] (fun c hc => absurd hc (List.not_mem_nil c))⟩

theorem process_mail_payload (l : List ReceivingConnection) (n : Nat)
    (sender_name message node_string : String) (timestamp : Int)
    (hfresh : ∀ c ∈ l, (c.socket == n) = false) :
    DirectMessaging.process_received_message
        ⟨n + 1, l ++ [⟨n, DirectMessaging.send_mail_to_client_payload
          (mkTypedMail sender_name message node_string timestamp)⟩]⟩ n
      = (⟨n + 1, l⟩,
         [.message_received (mkTypedMail sender_name message node_string timestamp)], none) := by
  rw [DirectMessaging.process_received_message]
  have hfind : (l ++ [(⟨n, DirectMessaging.send_mail_to_client_payload
        (mkTypedMail sender_name message node_string timestamp)⟩ : ReceivingConnection)]).find?
        (fun c => c.socket == n)
      = some ⟨n, DirectMessaging.send_mail_to_client_payload
          (mkTypedMail sender_name message node_string timestamp)⟩ := by
    rw [find?_append_fresh _ _ _ hfresh]
    exact List.find?_cons_of_pos _ (by simp)
  rw [hfind]
  have hload : pyLoads (DirectMessaging.send_mail_to_client_payload
        (mkTypedMail sender_name message node_string timestamp))
      = some (Json.obj [("type", Json.str "mail"),
          ("mail", (mkTypedMail sender_name message node_string timestamp).as_dict)]) :=
    pyLoads_pyDumps _ rfl
  have herase : (l ++ [(⟨n, DirectMessaging.send_mail_to_client_payload
        (mkTypedMail sender_name message node_string timestamp)⟩ : ReceivingConnection)]).erase
        ⟨n, DirectMessaging.send_mail_to_client_payload
          (mkTypedMail sender_name message node_string timestamp)⟩ = l :=
    erase_append_fresh l _ (by
      intro c hc he
      have := hfresh c hc
      rw [he] at this
      simp at this)
  simp only [hload,
    show pyGetItem (Json.obj [("type", Json.str "mail"),
        ("mail", (mkTypedMail sender_name message node_string timestamp).as_dict)]) "type"
      = .ok (Json.str "mail") from rfl,
    show jbeq (Json.str "mail") (Json.str "shutdown") = false from by decide,
    Bool.false_eq_true, if_false,
    show pyGetItem (Json.obj [("type", Json.str "mail"),
        ("mail", (mkTypedMail sender_name message node_string timestamp).as_dict)]) "mail"
      = .ok (mkTypedMail sender_name message node_string timestamp).as_dict from rfl,
    show mkNodeMailerMail (mkTypedMail sender_name message node_string timestamp).as_dict
      = .ok (mkTypedMail sender_name message node_string timestamp) from rfl,
    herase]

/-- C1: end-to-end delivery.  If the sender's TCP connect succeeds and the
bytes `send_mail_to_client` serializes and writes for a (typed) mail arrive on
a fresh inbound connection as any sequence of read chunks followed by the
close, the receiving `DirectMessaging` emits exactly one `message_received`
signal carrying a mail equal in all four fields, raises nothing, and removes
the connection again. -/
theorem C1_end_to_end_delivery (sender_name message node_string : String) (timestamp : Int)
    (s : DirectMessagingState) (chunks : List String) (hwf : socketsBelow s)
    (hjoin : String.join chunks = DirectMessaging.send_mail_to_client_payload
        (mkTypedMail sender_name message node_string timestamp)) :
    DirectMessaging.run s (.newConnection ::
        (chunks.map (NetEvent.readyRead s.nextSocket) ++ [.disconnected s.nextSocket]))
      = (⟨s.nextSocket + 1, s.open_connections⟩,
         [.message_received (mkTypedMail sender_name message node_string timestamp)], []) := by
  have hfresh : ∀ c ∈ s.open_connections, (c.socket == s.nextSocket) = false := by
    intro c hc
    have := hwf c hc
    simp only [beq_eq_false_iff_ne, ne_eq]
    omega
  rw [run_chunks_join s chunks hwf, hjoin]
  rw [show [NetEvent.newConnection,
        NetEvent.readyRead s.nextSocket (DirectMessaging.send_mail_to_client_payload
          (mkTypedMail sender_name message node_string timestamp)),
        NetEvent.disconnected s.nextSocket]
      = NetEvent.newConnection ::
        (([DirectMessaging.send_mail_to_client_payload
            (mkTypedMail sender_name message node_string timestamp)].map
              (NetEvent.readyRead s.nextSocket))
          ++ [NetEvent.disconnected s.nextSocket]) from rfl]
  rw [run_cons,
    show DirectMessaging.step s .newConnection = (DirectMessaging.on_new_connection s, [], none)
      from rfl,
    show DirectMessaging.on_new_connection s
      = ⟨s.nextSocket + 1, s.open_connections ++ [⟨s.nextSocket, ""⟩]⟩ from rfl,
    run_append,
    run_reads _ (s.nextSocket + 1) s.nextSocket s.open_connections "" hfresh]
  rw [show ([DirectMessaging.send_mail_to_client_payload
        (mkTypedMail sender_name message node_string timestamp)].foldl
          (fun a c => a ++ c) "")
      = DirectMessaging.send_mail_to_client_payload
          (mkTypedMail sender_name message node_string timestamp) from by simp]
  rw [run_cons,
    show DirectMessaging.step ⟨s.nextSocket + 1, s.open_connections
        ++ [⟨s.nextSocket, DirectMessaging.send_mail_to_client_payload
          (mkTypedMail sender_name message node_string timestamp)⟩]⟩
        (.disconnected s.nextSocket)
      = DirectMessaging.process_received_message ⟨s.nextSocket + 1, s.open_connections
          ++ [⟨s.nextSocket, DirectMessaging.send_mail_to_client_payload
            (mkTypedMail sender_name message node_string timestamp)⟩]⟩ s.nextSocket from rfl,
    process_mail_payload s.open_connections s.nextSocket sender_name message node_string
      timestamp hfresh]
  simp [DirectMessaging.run]

theorem C1_end_to_end_delivery_witness :
    socketsBelow ⟨0, []⟩
    ∧ String.join [DirectMessaging.send_mail_to_client_payload (mkTypedMail "bob" "hi" "xyz" 1000)]
      = DirectMessaging.send_mail_to_client_payload (mkTypedMail "bob" "hi" "xyz" 1000)
    ∧ DirectMessaging.run ⟨0, []⟩ (.newConnection ::
        (([DirectMessaging.send_mail_to_client_payload (mkTypedMail "bob" "hi" "xyz" 1000)].map
            (NetEvent.readyRead 0)) ++ [.disconnected 0]))
      = (⟨1, []⟩, [.message_received (mkTypedMail "bob" "hi" "xyz" 1000)], []) :=
  ⟨fun c hc => absurd hc (List.not_mem_nil c), by simp [String.join],
   C1_end_to_end_delivery "bob" "hi" "xyz" 1000 ⟨0, []⟩
     [DirectMessaging.send_mail_to_client_payload (mkTypedMail "bob" "hi" "xyz" 1000)]
     (fun c hc => absurd hc (List.not_mem_nil c)) (by simp [String.join])⟩

/-- The spec's sorting invariant: every favorite peer precedes every
non-favorite peer. -/
def favsFirst (clients : List NodeMailerClient) : Prop :=
  List.Pairwise (fun a b => b.favorite = true → a.favorite = true) clients

theorem pairwise_of_fact {α : Type} (R : α → α → Prop) :
    ∀ l : List α, (∀ a ∈ l, ∀ b ∈ l, R a b) → l.Pairwise R := by
  intro l
  induction l with
  | nil => intro _; exact List.Pairwise.nil
  | cons a t ih =>
    intro h
    exact List.Pairwise.cons (fun b hb => h a (by simp) b (by simp [hb]))
      (ih (fun x hx y hy => h x (by simp [hx]) y (by simp [hy])))

theorem favsFirst_sort (l : List NodeMailerClient) :
    favsFirst (ClientDiscovery.sort_by_favorites l) := by
  rw [favsFirst, ClientDiscovery.sort_by_favorites, List.pairwise_append]
  refine ⟨pairwise_of_fact _ _ ?_, pairwise_of_fact _ _ ?_, ?_⟩
  · intro a ha b _ _
    exact (List.mem_filter.mp ha).2
  · intro a _ b hb hbf
    have := (List.mem_filter.mp hb).2
    simp [hbf] at this
  · intro a ha b _ _
    exact (List.mem_filter.mp ha).2

theorem filter_fav_sort (l : List NodeMailerClient) :
    (ClientDiscovery.sort_by_favorites l).filter (fun c => c.favorite)
      = l.filter (fun c => c.favorite) := by
  rw [ClientDiscovery.sort_by_favorites, List.filter_append]
  have h1 : (l.filter (fun c => c.favorite)).filter (fun c => c.favorite)
      = l.filter (fun c => c.favorite) :=
    List.filter_eq_self.mpr (fun a ha => (List.mem_filter.mp ha).2)
  have h2 : (l.filter (fun c => !c.favorite)).filter (fun c => c.favorite) = [] :=
    List.filter_eq_nil_iff.mpr (fun a ha => by
      have := (List.mem_filter.mp ha).2
      simp_all)
  rw [h1, h2, List.append_nil]

theorem filter_nonfav_sort (l : List NodeMailerClient) :
    (ClientDiscovery.sort_by_favorites l).filter (fun c => !c.favorite)
      = l.filter (fun c => !c.favorite) := by
  rw [ClientDiscovery.sort_by_favorites, List.filter_append]
  have h1 : (l.filter (fun c => c.favorite)).filter (fun c => !c.favorite) = [] :=
    List.filter_eq_nil_iff.mpr (fun a ha => by
      have := (List.mem_filter.mp ha).2
      simp_all)
  have h2 : (l.filter (fun c => !c.favorite)).filter (fun c => !c.favorite)
      = l.filter (fun c => !c.favorite) :=
    List.filter_eq_self.mpr (fun a ha => (List.mem_filter.mp ha).2)
  rw [h1, h2, List.nil_append]

theorem mem_update_favorite (n : Json) (now : ℚ) :
    ∀ (l : List NodeMailerClient) (b : NodeMailerClient),
    b ∈ ClientDiscovery.update_client_last_seen_timestamp l n now →
    ∃ b0 ∈ l, b.favorite = b0.favorite := by
  intro l
  induction l with
  | nil => intro b hb; exact absurd hb (List.not_mem_nil b)
  | cons d rest ih =>
    intro b hb
    rw [ClientDiscovery.update_client_last_seen_timestamp] at hb
    by_cases hd : jbeq d.name n = true
    · rw [hd, if_pos rfl] at hb
      rcases List.mem_cons.mp hb with h | h
      · exact ⟨d, by simp, by rw [h]⟩
      · exact ⟨b, by simp [h], rfl⟩
    · rw [Bool.not_eq_true] at hd
      rw [hd, if_neg (by simp)] at hb
      rcases List.mem_cons.mp hb with h | h
      · exact ⟨d, by simp, by rw [h]⟩
      · obtain ⟨b0, hb0, he⟩ := ih b h
        exact ⟨b0, by simp [hb0], he⟩

theorem favsFirst_update (n : Json) (now : ℚ) :
    ∀ l : List NodeMailerClient, favsFirst l →
    favsFirst (ClientDiscovery.update_client_last_seen_timestamp l n now) := by
  intro l
  induction l with
  | nil => intro _; exact List.Pairwise.nil
  | cons c rest ih =>
    intro h
    obtain ⟨hc, hrest⟩ := List.pairwise_cons.mp h
    rw [ClientDiscovery.update_client_last_seen_timestamp]
    by_cases hd : jbeq c.name n = true
    · rw [hd, if_pos rfl]
      exact List.Pairwise.cons (fun b hb => hc b hb) hrest
    · rw [Bool.not_eq_true] at hd
      rw [hd, if_neg (by simp)]
      refine List.Pairwise.cons ?_ (ih hrest)
      intro b hb hbf
      obtain ⟨b0, hb0, he⟩ := mem_update_favorite n now rest b hb
      exact hc b0 hb0 (he ▸ hbf)

/-- C8: sorting invariant.  After any registry mutation that succeeds —
processing a presence datagram, stale removal, or a favorite toggle — every
`favorite` peer precedes every non-favorite peer, and within each of the two
groups the order is exactly that of the un-re-sorted mutated list (`rawMutation`),
i.e. relative order within each group is stable. -/
theorem C8_sorting_invariant (m : RegistryMutation) (clients result raw : List NodeMailerClient)
    (hff : favsFirst clients)
    (happ : applyMutation m clients = .ok result)
    (hraw : rawMutation m clients = .ok raw) :
    favsFirst result
    ∧ result.filter (fun c => c.favorite) = raw.filter (fun c => c.favorite)
    ∧ result.filter (fun c => !c.favorite) = raw.filter (fun c => !c.favorite) := by
  cases m with
  | removeStale now =>
    simp only [applyMutation, rawMutation, Except.ok.injEq] at happ hraw
    subst happ
    subst hraw
    exact ⟨List.Pairwise.sublist (List.filter_sublist clients) hff, rfl, rfl⟩
  | datagram favorites now dgram =>
    rw [applyMutation, ClientDiscovery.process_datagram] at happ
    rw [rawMutation] at hraw
    cases hl : pyLoads dgram.data with
    | none =>
      simp only [hl, Except.ok.injEq] at happ hraw
      subst happ
      subst hraw
      exact ⟨hff, rfl, rfl⟩
    | some parsed =>
      cases hg : pyGetItem parsed "name" with
      | error e =>
        cases e with
        | keyError k =>
          simp only [hl, hg, Except.ok.injEq] at happ hraw
          subst happ
          subst hraw
          exact ⟨hff, rfl, rfl⟩
        | typeError =>
          simp only [hl, hg] at happ
          exact absurd happ (by simp)
        | valueError =>
          simp only [hl, hg] at happ
          exact absurd happ (by simp)
        | indexError =>
          simp only [hl, hg] at happ
          exact absurd happ (by simp)
      | ok nameJ =>
        cases hs : ClientDiscovery.get_stored_client_from_name clients nameJ with
        | some c0 =>
          simp only [hl, hg, hs, Except.ok.injEq] at happ hraw
          subst happ
          subst hraw
          exact ⟨favsFirst_update nameJ now clients hff, rfl, rfl⟩
        | none =>
          simp only [hl, hg, hs, Except.ok.injEq] at happ hraw
          subst happ
          subst hraw
          exact ⟨favsFirst_sort _, filter_fav_sort _, filter_nonfav_sort _⟩
  | toggleFavorite favorites i =>
    rw [applyMutation, ClientDiscovery.toggle_favorite] at happ
    rw [rawMutation] at hraw
    cases hg : clients.get? i with
    | none =>
      simp only [hg, Except.map] at happ
      exact absurd happ (by simp)
    | some client =>
      by_cases hf : client.favorite = true
      · cases hr : ClientDiscovery.remove_favorite favorites client.name with
        | error e =>
          simp only [hg, hf, if_pos, hr, Except.map] at happ
          exact absurd happ (by simp)
        | ok favorites2 =>
          simp only [hg, hf, if_pos, hr, Except.map, Except.ok.injEq] at happ hraw
          subst happ
          subst hraw
          exact ⟨favsFirst_sort _, filter_fav_sort _, filter_nonfav_sort _⟩
      · rw [Bool.not_eq_true] at hf
        simp only [hg, hf, Bool.false_eq_true, if_false, Except.map,
          Except.ok.injEq] at happ hraw
        subst happ
        subst hraw
        exact ⟨favsFirst_sort _, filter_fav_sort _, filter_nonfav_sort _⟩

theorem C8_sorting_invariant_witness :
    favsFirst [(⟨Json.str "a", "1.1.1.1", true, 0⟩ : NodeMailerClient)]
    ∧ ([(⟨Json.str "a", "1.1.1.1", true, 0⟩ : NodeMailerClient)].filter (fun c => c.favorite)
        = [(⟨Json.str "a", "1.1.1.1", true, 0⟩ : NodeMailerClient)].filter (fun c => c.favorite))
    ∧ ([(⟨Json.str "a", "1.1.1.1", true, 0⟩ : NodeMailerClient)].filter (fun c => !c.favorite)
        = [(⟨Json.str "a", "1.1.1.1", true, 0⟩ : NodeMailerClient)].filter (fun c => !c.favorite)) :=
  C8_sorting_invariant (.toggleFavorite [] 0) [⟨Json.str "a", "1.1.1.1", false, 0⟩]
    [⟨Json.str "a", "1.1.1.1", true, 0⟩] [⟨Json.str "a", "1.1.1.1", true, 0⟩]
    (by simp [favsFirst]) rfl rfl
